import Mathlib

/-!
Verification development for a wire-compatible Redis-style server
(TypeScript sources under `src/app` plus unnamed parts).

Modelling conventions used throughout:
- byte buffers and byte strings are `List Nat` (each element one byte;
  JavaScript strings that only ever hold ASCII/latin1 text are modelled by
  their byte codes, and `Buffer.toString`/`TextDecoder` round-trips are the
  identity on that fragment);
- JavaScript `undefined` results of out-of-range indexing are `Option`;
- `Date.now()` is an explicit `now` parameter;
- fallible code returns `Except`.
-/

/-! ## Decimal numerals (JS number rendering and `Number(...)` parsing) -/

/-- Fuel-driven digit accumulator (structural recursion so that concrete
values reduce inside the kernel); `fuel > n` always suffices. -/
def natToAsciiGo : Nat → Nat → List Nat
  | 0, _ => []
  | fuel + 1, n =>
      if n < 10 then [48 + n] else natToAsciiGo fuel (n / 10) ++ [48 + n % 10]

/-- ASCII decimal digits of a natural number, most significant first
(the byte codes of JS `String(n)` for a non-negative integer). -/
def natToAscii (n : Nat) : List Nat := natToAsciiGo (n + 1) n

theorem natToAsciiGo_congr : ∀ (f1 f2 n : Nat), n < f1 → n < f2 →
    natToAsciiGo f1 n = natToAsciiGo f2 n := by
  intro f1
  induction f1 with
  | zero => intro f2 n h1 _; omega
  | succ f1 ih =>
      intro f2 n h1 h2
      cases f2 with
      | zero => omega
      | succ f2 =>
          simp only [natToAsciiGo]
          by_cases h : n < 10
          · rw [if_pos h, if_pos h]
          · rw [if_neg h, if_neg h]
            have hd : n / 10 < n := Nat.div_lt_self (by omega) (by omega)
            rw [ih f2 (n / 10) (by omega) (by omega)]

theorem natToAscii_unfold (n : Nat) :
    natToAscii n = if n < 10 then [48 + n] else natToAscii (n / 10) ++ [48 + n % 10] := by
  unfold natToAscii
  simp only [natToAsciiGo]
  by_cases h : n < 10
  · rw [if_pos h, if_pos h]
  · rw [if_neg h, if_neg h]
    have hd : n / 10 < n := Nat.div_lt_self (by omega) (by omega)
    rw [natToAsciiGo_congr n (n / 10 + 1) (n / 10) (by omega) (by omega)]
    rfl

/-- ASCII decimal rendering of an integer (JS `String(i)`). -/
def intToAscii (i : Int) : List Nat :=
  if i < 0 then 45 :: natToAscii (-i).toNat else natToAscii i.toNat

/-- Value of a list of ASCII digit bytes, most significant first. -/
def digitsVal (l : List Nat) : Nat :=
  l.foldl (fun a d => a * 10 + (d - 48)) 0

/-- Is the byte an ASCII decimal digit? -/
def isDigitByte (d : Nat) : Bool := 48 ≤ d && d ≤ 57

/-- JS `Number(s)` restricted to the strings this code base feeds it:
`""` is `0`, a digit string is its value, `-` followed by digits is negative,
anything else is `NaN` (modelled as `none`). -/
def jsNumber (s : List Nat) : Option Int :=
  if s = [] then some 0
  else if s.all isDigitByte then some (digitsVal s)
  else
    match s with
    | 45 :: rest =>
        if rest ≠ [] && rest.all isDigitByte then some (-(digitsVal rest : Int))
        else none
    | _ => none

/-- Byte codes of an ASCII string literal. -/
def strBytes (s : String) : List Nat := s.data.map Char.toNat

/-- JS `toUpperCase` on one ASCII byte. -/
def upperByte (b : Nat) : Nat := if 97 ≤ b ∧ b ≤ 122 then b - 32 else b

/-- JS `toUpperCase` on an ASCII byte string. -/
def upperBytes (s : List Nat) : List Nat := s.map upperByte

theorem natToAscii_ne_nil (n : Nat) : natToAscii n ≠ [] := by
  rw [natToAscii_unfold]
  split <;> simp

theorem natToAscii_digits (n : Nat) : ∀ d ∈ natToAscii n, 48 ≤ d ∧ d ≤ 57 := by
  induction n using Nat.strong_induction_on with
  | _ n ih =>
    rw [natToAscii_unfold]
    split
    · intro d hd
      simp only [List.mem_singleton] at hd
      omega
    · intro d hd
      rcases List.mem_append.1 hd with h | h
      · exact ih (n / 10) (Nat.div_lt_self (by omega) (by omega)) d h
      · simp only [List.mem_singleton] at h
        have : n % 10 < 10 := Nat.mod_lt _ (by omega)
        omega

theorem digitsVal_append (l : List Nat) (d : Nat) :
    digitsVal (l ++ [d]) = 10 * digitsVal l + (d - 48) := by
  simp [digitsVal, List.foldl_append]
  omega

theorem digitsVal_natToAscii (n : Nat) : digitsVal (natToAscii n) = n := by
  induction n using Nat.strong_induction_on with
  | _ n ih =>
    rw [natToAscii_unfold]
    split
    · simp [digitsVal]
    · rw [digitsVal_append, ih (n / 10) (Nat.div_lt_self (by omega) (by omega))]
      have h1 := Nat.div_add_mod n 10
      have h2 : n % 10 < 10 := Nat.mod_lt _ (by omega)
      omega

theorem jsNumber_natToAscii (n : Nat) : jsNumber (natToAscii n) = some (n : Int) := by
  unfold jsNumber
  rw [if_neg (natToAscii_ne_nil n)]
  have hall : (natToAscii n).all isDigitByte = true := by
    rw [List.all_eq_true]
    intro d hd
    have := natToAscii_digits n d hd
    simp [isDigitByte]
    omega
  rw [if_pos hall, digitsVal_natToAscii]

/-! ## Wire codec (`serialazeRedisCommand.ts`) -/

/-- `serialazeBulkString`: the empty string becomes the null bulk
`$-1\r\n`; otherwise `$<len>\r\n<bytes>\r\n`. -/
def serialazeBulkString (w : List Nat) : List Nat :=
  if w = [] then strBytes "$-1\r\n"
  else 36 :: natToAscii w.length ++ [13, 10] ++ w ++ [13, 10]

/-- `serialazeSimpleString`: `+<text>\r\n`. -/
def serialazeSimpleString (s : List Nat) : List Nat := 43 :: s ++ [13, 10]

/-- `serialazeSimpleError`: `-<text>\r\n`. -/
def serialazeSimpleError (s : List Nat) : List Nat := 45 :: s ++ [13, 10]

/-- `serialazeInteger`: `:<decimal>\r\n`. -/
def serialazeInteger (i : Int) : List Nat := 58 :: intToAscii i ++ [13, 10]

/-- `serialazeArray`: `*<count>\r\n` followed by the already-encoded
element frames. -/
def serialazeArray (frames : List (List Nat)) : List Nat :=
  42 :: natToAscii frames.length ++ [13, 10] ++ frames.flatten

/-- `serialazeBulkStringArray`: array of bulk strings. -/
def serialazeBulkStringArray (ws : List (List Nat)) : List Nat :=
  serialazeArray (ws.map serialazeBulkString)

theorem serialazeBulkString_length_pos (w : List Nat) :
    1 ≤ (serialazeBulkString w).length := by
  unfold serialazeBulkString
  split <;> simp [strBytes]

theorem serialazeBulkStringArray_length_pos (ws : List (List Nat)) :
    1 ≤ (serialazeBulkStringArray ws).length := by
  simp [serialazeBulkStringArray, serialazeArray]

/-! ## Frame parser (`parseRedisCommand.ts`, `CommandParser`)

The parser walks a byte buffer with an absolute cursor.  JS indexing out of
range gives `undefined` (`none` here); `Buffer.subarray` clamps its bounds;
`String.fromCharCode(undefined)` is the NUL character (byte 0).  The cursor
is an `Int` because `readBytes` can be called with a negative length
(`Number("-1")` for a null bulk) and then moves the cursor backwards. -/

/-- One parsed command record: upper-cased name, argument list, and the
number of bytes consumed for this frame (`currentByte - lastCommandEnd`). -/
structure RCommand where
  name : List Nat
  args : List (List Nat)
  length : Int
deriving DecidableEq, Repr

/-- Parse failures (`throw Error(...)` in the source, caught by `parse`).
`nanLength` stands for a bulk-string length that `Number` turns into `NaN`
(never produced by the inputs considered in this development), `fuelOut`
for exhaustion of the recursion bound (ditto). -/
inductive PErr where
  | expectingArray
  | expectingLF
  | expectingString
  | typeErr
  | nanLength
  | fuelOut
deriving DecidableEq, Repr

/-- `this.data[i]`: `undefined` when out of range. -/
def byteAt (data : List Nat) (i : Int) : Option Nat :=
  if 0 ≤ i then data.get? i.toNat else none

/-- `String.fromCharCode` on a possibly-`undefined` byte. -/
def jsChar (o : Option Nat) : Nat := o.getD 0

/-- Fuel-driven body of the `while (peekByte() !== 13 && !isEnd())` loop of
`parseElement` (structural recursion so that concrete runs reduce inside
the kernel); any fuel above the remaining distance to the end suffices. -/
def elemLoopGo (data : List Nat) : Nat → Int → List Nat → List Nat × Int
  | 0, cur, acc => (acc, cur)
  | fuel + 1, cur, acc =>
      if byteAt data cur ≠ some 13 ∧ cur < (data.length : Int) then
        elemLoopGo data fuel (cur + 1) (acc ++ [jsChar (byteAt data cur)])
      else (acc, cur)

/-- The accumulation loop of `parseElement`: value collected and the
cursor at exit. -/
def elemLoop (data : List Nat) (cur : Int) (acc : List Nat) : List Nat × Int :=
  elemLoopGo data (((data.length : Int) - cur).toNat + 1) cur acc

theorem elemLoopGo_congr (data : List Nat) : ∀ (f1 f2 : Nat) (cur : Int) (acc : List Nat),
    ((data.length : Int) - cur).toNat < f1 → ((data.length : Int) - cur).toNat < f2 →
    elemLoopGo data f1 cur acc = elemLoopGo data f2 cur acc := by
  intro f1
  induction f1 with
  | zero => intro f2 cur acc h1 _; omega
  | succ f1 ih =>
      intro f2 cur acc h1 h2
      cases f2 with
      | zero => omega
      | succ f2 =>
          simp only [elemLoopGo]
          by_cases hc : byteAt data cur ≠ some 13 ∧ cur < (data.length : Int)
          · rw [if_pos hc, if_pos hc]
            have hlt := hc.2
            have hg1 : ((data.length : Int) - (cur + 1)).toNat < f1 := by omega
            have hg2 : ((data.length : Int) - (cur + 1)).toNat < f2 := by omega
            exact ih f2 (cur + 1) _ hg1 hg2
          · rw [if_neg hc, if_neg hc]

theorem elemLoop_unfold (data : List Nat) (cur : Int) (acc : List Nat) :
    elemLoop data cur acc
      = if byteAt data cur ≠ some 13 ∧ cur < (data.length : Int) then
          elemLoop data (cur + 1) (acc ++ [jsChar (byteAt data cur)])
        else (acc, cur) := by
  unfold elemLoop
  simp only [elemLoopGo]
  by_cases hc : byteAt data cur ≠ some 13 ∧ cur < (data.length : Int)
  · rw [if_pos hc, if_pos hc]
    have hlt := hc.2
    have hg1 : ((data.length : Int) - (cur + 1)).toNat
        < ((data.length : Int) - cur).toNat := by omega
    have hg2 : ((data.length : Int) - (cur + 1)).toNat
        < ((data.length : Int) - (cur + 1)).toNat + 1 := by omega
    exact elemLoopGo_congr data _ _ (cur + 1) _ hg1 hg2
  · rw [if_neg hc, if_neg hc]

/-- `parseElement`: one raw line; takes the first byte unconditionally,
loops to the next CR, consumes it, and requires a LF after it. -/
def parseElement (data : List Nat) (cur : Int) : Except PErr (List Nat × Int) :=
  let r := elemLoop data (cur + 1) [jsChar (byteAt data cur)]
  if byteAt data (r.2 + 1) = some 10 then .ok (r.1, r.2 + 2) else .error .expectingLF

/-- `Buffer.subarray` index resolution: negative indices count from the end,
everything is clamped to `[0, len]`. -/
def subClamp (len i : Int) : Int :=
  if i < 0 then max (len + i) 0 else min i len

/-- The bytes `readBytes(n)` returns (the cursor itself advances by `n`,
even when the slice was clamped). -/
def readBytesVal (data : List Nat) (cur n : Int) : List Nat :=
  if subClamp data.length (cur + n) ≤ subClamp data.length cur then []
  else (data.take (subClamp data.length (cur + n)).toNat).drop (subClamp data.length cur).toNat

/-- `parseString`: `$` bulk string (length line, payload, two skipped
bytes) or `+` simple string; anything else throws. -/
def parseStringP (data : List Nat) (cur : Int) : Except PErr (List Nat × Int) :=
  if byteAt data cur = some 36 then
    match parseElement data (cur + 1) with
    | .error e => .error e
    | .ok (lenStr, c2) =>
        match jsNumber lenStr with
        | none => .error .nanLength
        | some L => .ok (readBytesVal data c2 L, c2 + L + 2)
  else if byteAt data cur = some 43 then parseElement data (cur + 1)
  else .error .expectingString

/-- The element loop of `parseArray` (`for i < Number(length)`). -/
def arrLoop (data : List Nat) : Nat → Int → List (List Nat) →
    Except PErr (List (List Nat) × Int)
  | 0, cur, acc => .ok (acc, cur)
  | k + 1, cur, acc =>
      match parseStringP data cur with
      | .error e => .error e
      | .ok (s, c2) => arrLoop data k c2 (acc ++ [s])

/-- `parseArray`: length line then that many elements (`Number(NaN)` or a
negative count runs the loop zero times). -/
def parseArrayP (data : List Nat) (cur : Int) : Except PErr (List (List Nat) × Int) :=
  match parseElement data cur with
  | .error e => .error e
  | .ok (lenStr, c1) =>
      let count : Nat := match jsNumber lenStr with | some k => k.toNat | none => 0
      arrLoop data count c1 []

/-- The `while (!this.isEnd())` loop of `parse`: expects `*`, parses the
array, builds the command record (uppercased name, byte length since the
previous frame end), and repeats.  An empty array makes `array[0]`
`undefined` and `.toUpperCase()` throw (`typeErr`). -/
def parseLoop (data : List Nat) : Nat → Int → Int → List RCommand →
    Except PErr (List RCommand)
  | 0, _, _, _ => .error .fuelOut
  | fuel + 1, cur, lastEnd, acc =>
      if (data.length : Int) ≤ cur then .ok acc
      else if byteAt data cur = some 42 then
        match parseArrayP data (cur + 1) with
        | .error e => .error e
        | .ok (arr, c2) =>
            match arr with
            | [] => .error .typeErr
            | a0 :: rest =>
                parseLoop data fuel c2 c2
                  (acc ++ [⟨upperBytes a0, rest, c2 - lastEnd⟩])
      else .error .expectingArray

/-- `CommandParser.parse`: either a parse error (with the empty command
list, as in the source's `catch`) or the list of parsed commands. -/
def parseCommands (data : List Nat) : Except PErr (List RCommand) :=
  parseLoop data (data.length + 1) 0 0 []

/-! ## Parsing an encoded frame (round-trip lemmas) -/

theorem byteAt_prepend (pre : List Nat) (b : Nat) (post : List Nat) :
    byteAt (pre ++ b :: post) (pre.length : Int) = some b := by
  unfold byteAt
  rw [if_pos (Int.natCast_nonneg _)]
  simp only [Int.toNat_natCast]
  rw [List.get?_eq_getElem?, List.getElem?_append_right (Nat.le_refl _)]
  simp

theorem elemLoop_digits (ds : List Nat) : ∀ (pre post acc : List Nat),
    (∀ c ∈ ds, c ≠ 13) →
    elemLoop (pre ++ (ds ++ 13 :: post)) (pre.length : Int) acc
      = (acc ++ ds, ((pre.length + ds.length : Nat) : Int)) := by
  induction ds with
  | nil =>
    intro pre post acc _
    rw [elemLoop_unfold, if_neg]
    · simp
    · have hb : byteAt (pre ++ ([] ++ 13 :: post)) (pre.length : Int) = some 13 :=
        byteAt_prepend pre 13 post
      rw [hb]
      simp
  | cons d ds ih =>
    intro pre post acc hds
    simp only [List.cons_append]
    have hb : byteAt (pre ++ d :: (ds ++ 13 :: post)) (pre.length : Int) = some d :=
      byteAt_prepend pre d (ds ++ 13 :: post)
    rw [elemLoop_unfold, if_pos]
    · rw [hb]
      have hdata : pre ++ d :: (ds ++ 13 :: post) = (pre ++ [d]) ++ (ds ++ 13 :: post) := by
        simp
      have hcur : (pre.length : Int) + 1 = (((pre ++ [d]).length : Nat) : Int) := by
        simp
      rw [show jsChar (some d) = d from rfl]
      rw [hdata, hcur, ih (pre ++ [d]) post (acc ++ [d])
        (fun c hc => hds c (List.mem_cons_of_mem d hc))]
      refine Prod.ext ?_ ?_
      · simp
      · push_cast [List.length_append, List.length_cons, List.length_nil]
        omega
    · constructor
      · rw [hb]
        have : d ≠ 13 := hds d (List.mem_cons_self d ds)
        simp [this]
      · push_cast [List.length_append, List.length_cons]
        omega

theorem parseElement_digits (pre s post : List Nat) (hs : s ≠ [])
    (hd : ∀ c ∈ s, c ≠ 13) :
    parseElement (pre ++ (s ++ 13 :: 10 :: post)) (pre.length : Int)
      = .ok (s, ((pre.length + s.length + 2 : Nat) : Int)) := by
  obtain ⟨d, ds, rfl⟩ := List.exists_cons_of_ne_nil hs
  unfold parseElement
  simp only [List.cons_append]
  have hb : byteAt (pre ++ d :: (ds ++ 13 :: 10 :: post)) (pre.length : Int) = some d :=
    byteAt_prepend pre d _
  rw [hb]
  have hdata : pre ++ d :: (ds ++ 13 :: 10 :: post)
      = (pre ++ [d]) ++ (ds ++ 13 :: (10 :: post)) := by simp
  have hcur : (pre.length : Int) + 1 = (((pre ++ [d]).length : Nat) : Int) := by simp
  rw [show jsChar (some d) = d from rfl, hdata, hcur,
    elemLoop_digits ds (pre ++ [d]) (10 :: post) [d]
      (fun c hc => hd c (List.mem_cons_of_mem d hc))]
  have hb10 : byteAt ((pre ++ [d]) ++ (ds ++ 13 :: 10 :: post))
      (((((pre ++ [d]).length + ds.length : Nat) : Int)) + 1) = some 10 := by
    have h1 : (pre ++ [d]) ++ (ds ++ 13 :: 10 :: post)
        = ((pre ++ [d]) ++ ds ++ [13]) ++ 10 :: post := by simp
    have h2 : ((((pre ++ [d]).length + ds.length : Nat) : Int)) + 1
        = ((((pre ++ [d]) ++ ds ++ [13]).length : Nat) : Int) := by
      push_cast [List.length_append, List.length_cons, List.length_nil]
      omega
    rw [h1, h2]
    exact byteAt_prepend _ 10 _
  simp only [hb10, if_pos]
  rw [List.singleton_append]
  have harith : (((((pre ++ [d]).length + ds.length : Nat) : Int)) + 2)
      = ((pre.length + (d :: ds).length + 2 : Nat) : Int) := by
    push_cast [List.length_append, List.length_cons, List.length_nil]
    omega
  rw [harith]

theorem readBytesVal_exact (pre w post : List Nat) :
    readBytesVal (pre ++ w ++ post) (pre.length : Int) (w.length : Int) = w := by
  rcases List.eq_nil_or_concat w with rfl | ⟨l, b, rfl⟩
  · simp [readBytesVal]
  · simp only [List.concat_eq_append]
    have hwpos : 0 < (l ++ [b]).length := by simp
    have hlen : ((pre ++ (l ++ [b]) ++ post).length : Int)
        = (pre.length : Int) + (l ++ [b]).length + post.length := by
      push_cast [List.length_append]
      ring
    unfold readBytesVal subClamp
    rw [if_neg (by omega : ¬ (pre.length : Int) + ((l ++ [b]).length : Int) < 0),
        if_neg (by omega : ¬ (pre.length : Int) < 0)]
    rw [hlen]
    rw [min_eq_left (by omega), min_eq_left (by omega)]
    rw [if_neg (by omega)]
    have h1 : ((pre.length : Int) + ((l ++ [b]).length : Int)).toNat
        = pre.length + (l ++ [b]).length := by omega
    have h2 : ((pre.length : Int)).toNat = pre.length := by omega
    rw [h1, h2]
    have h3 : (pre ++ (l ++ [b]) ++ post).take (pre.length + (l ++ [b]).length)
        = pre ++ (l ++ [b]) := by
      rw [show pre ++ (l ++ [b]) ++ post = (pre ++ (l ++ [b])) ++ post by simp]
      rw [List.take_left']
      simp
    rw [h3, List.drop_left]

theorem parseStringP_bulk (pre w post : List Nat) (hw : w ≠ []) :
    parseStringP (pre ++ serialazeBulkString w ++ post) (pre.length : Int)
      = .ok (w, ((pre.length + (serialazeBulkString w).length : Nat) : Int)) := by
  unfold serialazeBulkString
  rw [if_neg hw]
  unfold parseStringP
  have hb : byteAt (pre ++ (36 :: natToAscii w.length ++ [13, 10] ++ w ++ [13, 10]) ++ post)
      (pre.length : Int) = some 36 := by
    rw [show pre ++ (36 :: natToAscii w.length ++ [13, 10] ++ w ++ [13, 10]) ++ post
        = pre ++ 36 :: (natToAscii w.length ++ [13, 10] ++ w ++ [13, 10] ++ post) by simp]
    exact byteAt_prepend pre 36 _
  rw [if_pos hb]
  have hdata : pre ++ (36 :: natToAscii w.length ++ [13, 10] ++ w ++ [13, 10]) ++ post
      = (pre ++ [36]) ++ (natToAscii w.length ++ 13 :: 10 :: (w ++ [13, 10] ++ post)) := by
    simp
  have hcur : (pre.length : Int) + 1 = (((pre ++ [36]).length : Nat) : Int) := by simp
  rw [hdata, hcur,
    parseElement_digits (pre ++ [36]) (natToAscii w.length) (w ++ [13, 10] ++ post)
      (natToAscii_ne_nil _)
      (fun c hc => by have := natToAscii_digits w.length c hc; omega)]
  dsimp only
  rw [jsNumber_natToAscii]
  dsimp only
  have hdata2 : (pre ++ [36]) ++ (natToAscii w.length ++ 13 :: 10 :: (w ++ [13, 10] ++ post))
      = ((pre ++ [36]) ++ natToAscii w.length ++ [13, 10]) ++ w ++ ([13, 10] ++ post) := by
    simp
  have hcur2 : (((pre ++ [36]).length + (natToAscii w.length).length + 2 : Nat) : Int)
      = ((((pre ++ [36]) ++ natToAscii w.length ++ [13, 10]).length : Nat) : Int) := by
    push_cast [List.length_append, List.length_cons, List.length_nil]
    omega
  rw [hdata2, hcur2, readBytesVal_exact]
  have harith : ((((pre ++ [36]) ++ natToAscii w.length ++ [13, 10]).length : Nat) : Int)
        + (w.length : Int) + 2
      = ((pre.length + (36 :: natToAscii w.length ++ [13, 10] ++ w ++ [13, 10]).length : Nat) : Int) := by
    push_cast [List.length_append, List.length_cons, List.length_nil]
    omega
  rw [harith]

theorem arrLoop_encode (ws : List (List Nat)) : ∀ (pre post : List Nat) (acc : List (List Nat)),
    (∀ w ∈ ws, w ≠ []) →
    arrLoop (pre ++ (ws.map serialazeBulkString).flatten ++ post) ws.length
        (pre.length : Int) acc
      = .ok (acc ++ ws,
          ((pre.length + ((ws.map serialazeBulkString).flatten).length : Nat) : Int)) := by
  induction ws with
  | nil =>
    intro pre post acc _
    simp [arrLoop]
  | cons w ws ih =>
    intro pre post acc hws
    simp only [List.map_cons, List.flatten_cons, List.length_cons]
    rw [arrLoop]
    have hdata : pre ++ (serialazeBulkString w ++ (ws.map serialazeBulkString).flatten) ++ post
        = pre ++ serialazeBulkString w ++ ((ws.map serialazeBulkString).flatten ++ post) := by
      simp
    rw [hdata, parseStringP_bulk pre w _ (hws w (List.mem_cons_self w ws))]
    have hdata2 : pre ++ serialazeBulkString w ++ ((ws.map serialazeBulkString).flatten ++ post)
        = (pre ++ serialazeBulkString w) ++ (ws.map serialazeBulkString).flatten ++ post := by
      simp
    have hcur : ((pre.length + (serialazeBulkString w).length : Nat) : Int)
        = (((pre ++ serialazeBulkString w).length : Nat) : Int) := by
      simp
    rw [hdata2, hcur]
    dsimp only
    rw [ih (pre ++ serialazeBulkString w) post (acc ++ [w])
      (fun v hv => hws v (List.mem_cons_of_mem w hv))]
    have harith : (((pre ++ serialazeBulkString w).length
          + ((ws.map serialazeBulkString).flatten).length : Nat) : Int)
        = ((pre.length
          + (serialazeBulkString w ++ (ws.map serialazeBulkString).flatten).length : Nat) : Int) := by
      push_cast [List.length_append]
      ring
    rw [harith]
    simp

theorem parseArrayP_encode (pre : List Nat) (ws : List (List Nat)) (post : List Nat)
    (hws : ∀ w ∈ ws, w ≠ []) :
    parseArrayP (pre ++ (natToAscii ws.length ++ 13 :: 10 ::
        ((ws.map serialazeBulkString).flatten ++ post))) (pre.length : Int)
      = .ok (ws, ((pre.length + (natToAscii ws.length).length + 2
          + ((ws.map serialazeBulkString).flatten).length : Nat) : Int)) := by
  unfold parseArrayP
  rw [show pre ++ (natToAscii ws.length ++ 13 :: 10 ::
        ((ws.map serialazeBulkString).flatten ++ post))
      = pre ++ (natToAscii ws.length ++ 13 :: 10 ::
        ((ws.map serialazeBulkString).flatten ++ post)) from rfl]
  rw [parseElement_digits pre (natToAscii ws.length) _
    (natToAscii_ne_nil _)
    (fun c hc => by have := natToAscii_digits ws.length c hc; omega)]
  dsimp only
  rw [jsNumber_natToAscii]
  dsimp only
  rw [Int.toNat_natCast]
  have hdata : pre ++ (natToAscii ws.length ++ 13 :: 10 ::
        ((ws.map serialazeBulkString).flatten ++ post))
      = (pre ++ natToAscii ws.length ++ [13, 10])
          ++ (ws.map serialazeBulkString).flatten ++ post := by
    simp
  have hcur : ((pre.length + (natToAscii ws.length).length + 2 : Nat) : Int)
      = (((pre ++ natToAscii ws.length ++ [13, 10]).length : Nat) : Int) := by
    push_cast [List.length_append, List.length_cons, List.length_nil]
    omega
  rw [hdata, hcur, arrLoop_encode ws _ post [] hws]
  have harith : (((pre ++ natToAscii ws.length ++ [13, 10]).length
        + ((ws.map serialazeBulkString).flatten).length : Nat) : Int)
      = ((pre.length + (natToAscii ws.length).length + 2
        + ((ws.map serialazeBulkString).flatten).length : Nat) : Int) := by
    push_cast [List.length_append, List.length_cons, List.length_nil]
    omega
  rw [harith]
  simp

theorem parseLoop_encode (fs : List (List (List Nat))) :
    ∀ (fuel : Nat) (pre : List Nat) (acc : List RCommand),
    fs.length < fuel →
    (∀ ws ∈ fs, ws ≠ [] ∧ ∀ w ∈ ws, w ≠ []) →
    parseLoop (pre ++ (fs.map serialazeBulkStringArray).flatten) fuel
        (pre.length : Int) (pre.length : Int) acc
      = .ok (acc ++ fs.map (fun ws =>
          ⟨upperBytes ws.headI, ws.tail, ((serialazeBulkStringArray ws).length : Int)⟩)) := by
  induction fs with
  | nil =>
    intro fuel pre acc hf _
    obtain ⟨f, rfl⟩ : ∃ f, fuel = f + 1 := ⟨fuel - 1, by omega⟩
    simp only [List.map_nil, List.flatten_nil, List.append_nil]
    rw [parseLoop]
    rw [if_pos (le_refl _)]
  | cons ws fs ih =>
    intro fuel pre acc hf hws
    obtain ⟨f, rfl⟩ : ∃ f, fuel = f + 1 := ⟨fuel - 1, by omega⟩
    obtain ⟨hne, hel⟩ := hws ws (List.mem_cons_self ws fs)
    obtain ⟨a0, tl, rfl⟩ := List.exists_cons_of_ne_nil hne
    simp only [List.map_cons, List.flatten_cons]
    rw [parseLoop]
    rw [if_neg (by
      push_cast [List.length_append]
      have h1 := serialazeBulkStringArray_length_pos (a0 :: tl)
      push_cast at h1
      omega)]
    have hshape : serialazeBulkStringArray (a0 :: tl)
        = 42 :: (natToAscii (a0 :: tl).length ++ 13 :: 10 ::
            (((a0 :: tl).map serialazeBulkString).flatten)) := by
      unfold serialazeBulkStringArray serialazeArray
      simp
    have hb : byteAt (pre ++ (serialazeBulkStringArray (a0 :: tl)
          ++ (fs.map serialazeBulkStringArray).flatten)) (pre.length : Int) = some 42 := by
      rw [hshape]
      rw [show pre ++ ((42 :: (natToAscii (a0 :: tl).length ++ 13 :: 10 ::
            (((a0 :: tl).map serialazeBulkString).flatten)))
            ++ (fs.map serialazeBulkStringArray).flatten)
          = pre ++ 42 :: ((natToAscii (a0 :: tl).length ++ 13 :: 10 ::
            (((a0 :: tl).map serialazeBulkString).flatten))
            ++ (fs.map serialazeBulkStringArray).flatten) by simp]
      exact byteAt_prepend pre 42 _
    rw [if_pos hb]
    have hdata : pre ++ (serialazeBulkStringArray (a0 :: tl)
          ++ (fs.map serialazeBulkStringArray).flatten)
        = (pre ++ [42]) ++ (natToAscii (a0 :: tl).length ++ 13 :: 10 ::
            ((((a0 :: tl).map serialazeBulkString).flatten)
              ++ (fs.map serialazeBulkStringArray).flatten)) := by
      rw [hshape]
      simp
    have hcur : (pre.length : Int) + 1 = (((pre ++ [42]).length : Nat) : Int) := by simp
    rw [hdata, hcur, parseArrayP_encode (pre ++ [42]) (a0 :: tl) _ hel]
    dsimp only
    have hclen : ((((pre ++ [42]).length + (natToAscii (a0 :: tl).length).length + 2
          + (((a0 :: tl).map serialazeBulkString).flatten).length : Nat) : Int))
        = (((pre ++ serialazeBulkStringArray (a0 :: tl)).length : Nat) : Int) := by
      rw [hshape]
      push_cast [List.length_append, List.length_cons, List.length_nil]
      omega
    rw [hclen]
    have hdata2 : (pre ++ [42]) ++ (natToAscii (a0 :: tl).length ++ 13 :: 10 ::
            ((((a0 :: tl).map serialazeBulkString).flatten)
              ++ (fs.map serialazeBulkStringArray).flatten))
        = (pre ++ serialazeBulkStringArray (a0 :: tl))
            ++ (fs.map serialazeBulkStringArray).flatten := by
      rw [hshape]
      simp
    rw [hdata2]
    have hf2 : fs.length < f := by
      simp only [List.length_cons] at hf
      omega
    rw [ih f (pre ++ serialazeBulkStringArray (a0 :: tl)) _ hf2
      (fun v hv => hws v (List.mem_cons_of_mem _ hv))]
    have hlenEq : (((pre ++ serialazeBulkStringArray (a0 :: tl)).length : Nat) : Int)
          - (pre.length : Int)
        = ((serialazeBulkStringArray (a0 :: tl)).length : Int) := by
      push_cast [List.length_append]
      ring
    rw [hlenEq]
    simp

theorem flatten_length_ge_count (fs : List (List (List Nat))) :
    fs.length ≤ ((fs.map serialazeBulkStringArray).flatten).length := by
  induction fs with
  | nil => simp
  | cons ws fs ih =>
    simp only [List.map_cons, List.flatten_cons, List.length_append, List.length_cons]
    have := serialazeBulkStringArray_length_pos ws
    omega

theorem parseCommands_concat (fs : List (List (List Nat)))
    (h : ∀ ws ∈ fs, ws ≠ [] ∧ ∀ w ∈ ws, w ≠ []) :
    parseCommands ((fs.map serialazeBulkStringArray).flatten)
      = .ok (fs.map (fun ws =>
          ⟨upperBytes ws.headI, ws.tail, ((serialazeBulkStringArray ws).length : Int)⟩)) := by
  unfold parseCommands
  have h0 : ((fs.map serialazeBulkStringArray).flatten)
      = ([] : List Nat) ++ (fs.map serialazeBulkStringArray).flatten := by simp
  have h1 : (0 : Int) = ((([] : List Nat).length : Nat) : Int) := by simp
  rw [h0, h1, parseLoop_encode fs _ [] []
    (by
      have := flatten_length_ge_count fs
      simp only [List.nil_append]
      omega)
    h]
  simp

/-! ## Replica offset accounting (`execCommand`, slave role)

On a replica, `execCommand` parses a delivered buffer, loops over the parsed
commands, and for each command whose response is defined adds
`command.length` to `serverState.master_repl_offset` (an undefined response
makes the loop return early, before the offset update).  A parse error
writes an error and applies nothing.  `respDef` abstracts "the command's
response was defined" (true for every command a master actually sends). -/

/-- The per-command loop of `execCommand` on a replica: stops at the first
command with an undefined response, otherwise adds each frame's parsed
byte length to the offset. -/
def slaveLoop (respDef : RCommand → Bool) : Int → List RCommand → Int
  | off, [] => off
  | off, c :: rest =>
      if respDef c then slaveLoop respDef (off + c.length) rest else off

/-- One `execCommand(data, masterConnection, true)` call's effect on
`master_repl_offset`. -/
def execFromMaster (respDef : RCommand → Bool) (off : Int) (data : List Nat) : Int :=
  match parseCommands data with
  | .error _ => off
  | .ok cmds => slaveLoop respDef off cmds

/-- Offset after a sequence of byte deliveries from the master. -/
def streamFromMaster (respDef : RCommand → Bool) (off : Int)
    (deliveries : List (List Nat)) : Int :=
  deliveries.foldl (execFromMaster respDef) off

theorem slaveLoop_sum (respDef : RCommand → Bool) (cmds : List RCommand) :
    ∀ off : Int, (∀ c ∈ cmds, respDef c = true) →
    slaveLoop respDef off cmds = off + (cmds.map RCommand.length).sum := by
  induction cmds with
  | nil => intro off _; simp [slaveLoop]
  | cons c rest ih =>
    intro off h
    rw [slaveLoop, if_pos (h c (List.mem_cons_self c rest))]
    rw [ih (off + c.length) (fun x hx => h x (List.mem_cons_of_mem c hx))]
    simp only [List.map_cons, List.sum_cons]
    ring

theorem sum_cast_lengths (g : List (List (List Nat))) :
    (g.map (fun ws => ((serialazeBulkStringArray ws).length : Int))).sum
      = (((g.map serialazeBulkStringArray).flatten).length : Int) := by
  induction g with
  | nil => simp
  | cons ws g ih =>
    simp only [List.map_cons, List.sum_cons, List.flatten_cons, List.length_append, ih]
    push_cast
    ring

theorem execFromMaster_frames (respDef : RCommand → Bool)
    (g : List (List (List Nat))) (off : Int)
    (hwf : ∀ ws ∈ g, ws ≠ [] ∧ ∀ w ∈ ws, w ≠ [])
    (hresp : ∀ c, respDef c = true) :
    execFromMaster respDef off ((g.map serialazeBulkStringArray).flatten)
      = off + (((g.map serialazeBulkStringArray).flatten).length : Int) := by
  unfold execFromMaster
  rw [parseCommands_concat g hwf]
  dsimp only
  rw [slaveLoop_sum respDef _ off (fun c _ => hresp c)]
  rw [List.map_map]
  rw [show (RCommand.length ∘ fun ws =>
      RCommand.mk (upperBytes ws.headI) ws.tail ((serialazeBulkStringArray ws).length : Int))
      = fun ws => ((serialazeBulkStringArray ws).length : Int) from rfl]
  rw [sum_cast_lengths]

theorem streamFromMaster_total (respDef : RCommand → Bool)
    (groups : List (List (List (List Nat)))) :
    ∀ off : Int,
    (∀ g ∈ groups, ∀ ws ∈ g, ws ≠ [] ∧ ∀ w ∈ ws, w ≠ []) →
    (∀ c, respDef c = true) →
    streamFromMaster respDef off
        (groups.map (fun g => (g.map serialazeBulkStringArray).flatten))
      = off + (((groups.map
          (fun g => ((g.map serialazeBulkStringArray).flatten).length)).sum : Nat) : Int) := by
  induction groups with
  | nil => intro off _ _; simp [streamFromMaster]
  | cons g groups ih =>
    intro off hwf hresp
    simp only [List.map_cons]
    unfold streamFromMaster
    simp only [List.foldl_cons]
    rw [execFromMaster_frames respDef g off (hwf g (List.mem_cons_self g groups)) hresp]
    have := ih (off + (((g.map serialazeBulkStringArray).flatten).length : Int))
      (fun x hx => hwf x (List.mem_cons_of_mem g hx)) hresp
    unfold streamFromMaster at this
    rw [this]
    simp only [List.sum_cons]
    push_cast
    ring

/-! ## Parsing a strict prefix of a frame

A truncated buffer behaves exactly like the full buffer until the parser
actually reads a byte at or past the truncation point: reads below it agree,
and every successful step of the truncated run transfers to the full run
with the same final cursor. -/

theorem byteAt_take_some (full : List Nat) (k : Nat) (i : Int) (b : Nat)
    (h : byteAt (full.take k) i = some b) :
    byteAt full i = some b ∧ 0 ≤ i ∧ i < (k : Int) := by
  unfold byteAt at h ⊢
  by_cases h0 : 0 ≤ i
  · rw [if_pos h0] at h ⊢
    rw [List.get?_eq_getElem?] at h ⊢
    rw [List.getElem?_take] at h
    by_cases hik : i.toNat < k
    · rw [if_pos hik] at h
      exact ⟨h, h0, by omega⟩
    · rw [if_neg hik] at h
      exact absurd h (by simp)
  · rw [if_neg h0] at h
    exact absurd h (by simp)

theorem byteAt_take_lt (full : List Nat) (k : Nat) (_hk : k ≤ full.length)
    (i : Int) (hi : i < (k : Int)) :
    byteAt (full.take k) i = byteAt full i := by
  unfold byteAt
  by_cases h0 : 0 ≤ i
  · rw [if_pos h0, if_pos h0]
    rw [List.get?_eq_getElem?, List.get?_eq_getElem?]
    rw [List.getElem?_take]
    rw [if_pos (by omega)]
  · rw [if_neg h0, if_neg h0]

theorem length_take_of_le (full : List Nat) (k : Nat) (hk : k ≤ full.length) :
    (full.take k).length = k := by
  simp [List.length_take]
  omega

theorem elemLoop_cursor_ge (data : List Nat) :
    ∀ (n : Nat) (cur : Int) (acc : List Nat),
    ((data.length : Int) - cur).toNat ≤ n →
    cur ≤ (elemLoop data cur acc).2 := by
  intro n
  induction n with
  | zero =>
    intro cur acc hn
    rw [elemLoop_unfold, if_neg (by omega)]
  | succ n ih =>
    intro cur acc hn
    rw [elemLoop_unfold]
    by_cases hc : byteAt data cur ≠ some 13 ∧ cur < (data.length : Int)
    · rw [if_pos hc]
      have := ih (cur + 1) (acc ++ [jsChar (byteAt data cur)]) (by omega)
      omega
    · rw [if_neg hc]

theorem elemLoop_take (full : List Nat) (k : Nat) (hk : k ≤ full.length) :
    ∀ (n : Nat) (cur : Int) (acc : List Nat),
    ((k : Int) - cur).toNat ≤ n →
    (elemLoop (full.take k) cur acc).2 < (k : Int) →
    elemLoop full cur acc = elemLoop (full.take k) cur acc := by
  intro n
  induction n with
  | zero =>
    intro cur acc hn hlt
    exfalso
    have hcur : (k : Int) ≤ cur := by omega
    rw [elemLoop_unfold, if_neg (by
      rw [length_take_of_le full k hk]
      omega)] at hlt
    exact absurd hlt (by omega)
  | succ n ih =>
    intro cur acc hn hlt
    by_cases hc : byteAt (full.take k) cur ≠ some 13 ∧ cur < ((full.take k).length : Int)
    · have hcl : cur < (k : Int) := by
        have := hc.2
        rw [length_take_of_le full k hk] at this
        exact this
      have hbeq : byteAt (full.take k) cur = byteAt full cur :=
        byteAt_take_lt full k hk cur hcl
      have hlt2 : (elemLoop (full.take k) (cur + 1)
          (acc ++ [jsChar (byteAt (full.take k) cur)])).2 < (k : Int) := by
        rw [elemLoop_unfold, if_pos hc] at hlt
        exact hlt
      conv_rhs => rw [elemLoop_unfold]
      rw [if_pos hc]
      conv_lhs => rw [elemLoop_unfold]
      rw [if_pos (show byteAt full cur ≠ some 13 ∧ cur < (full.length : Int) from
        ⟨by rw [← hbeq]; exact hc.1, by omega⟩)]
      rw [← hbeq]
      exact ih (cur + 1) (acc ++ [jsChar (byteAt (full.take k) cur)]) (by omega) hlt2
    · rw [elemLoop_unfold, if_neg hc] at hlt
      -- the truncated loop stopped at `cur < k`, so it saw a CR there
      have hcr : byteAt (full.take k) cur = some 13 := by
        by_contra hne
        apply hc
        refine ⟨hne, ?_⟩
        rw [length_take_of_le full k hk]
        exact hlt
      have hbeq : byteAt (full.take k) cur = byteAt full cur :=
        byteAt_take_lt full k hk cur hlt
      rw [elemLoop_unfold, if_neg (by
        intro hcf
        apply hcf.1
        rw [← hbeq]
        exact hcr)]
      rw [elemLoop_unfold, if_neg hc]

theorem parseElement_take (full : List Nat) (k : Nat) (hk : k ≤ full.length)
    (cur : Int) (v : List Nat) (c2 : Int)
    (h : parseElement (full.take k) cur = .ok (v, c2)) :
    parseElement full cur = .ok (v, c2) := by
  unfold parseElement at h ⊢
  by_cases hLF : byteAt (full.take k)
      ((elemLoop (full.take k) (cur + 1) [jsChar (byteAt (full.take k) cur)]).2 + 1) = some 10
  · obtain ⟨h10f, hge0, hltk⟩ := byteAt_take_some full k _ 10 hLF
    have hr2 : (elemLoop (full.take k) (cur + 1)
        [jsChar (byteAt (full.take k) cur)]).2 < (k : Int) := by omega
    have hge : cur + 1 ≤ (elemLoop (full.take k) (cur + 1)
        [jsChar (byteAt (full.take k) cur)]).2 :=
      elemLoop_cursor_ge (full.take k)
        ((((full.take k).length : Int) - (cur + 1)).toNat) (cur + 1) _ (le_refl _)
    have hcurk : cur < (k : Int) := by omega
    have hchar : byteAt (full.take k) cur = byteAt full cur :=
      byteAt_take_lt full k hk cur hcurk
    have hloop : elemLoop full (cur + 1) [jsChar (byteAt (full.take k) cur)]
        = elemLoop (full.take k) (cur + 1) [jsChar (byteAt (full.take k) cur)] :=
      elemLoop_take full k hk (((k : Int) - (cur + 1)).toNat) (cur + 1) _ (le_refl _) hr2
    rw [← hchar, hloop]
    rw [if_pos hLF] at h
    rw [if_pos h10f]
    exact h
  · rw [if_neg hLF] at h
    exact absurd h (by simp)

theorem parseStringP_take (full : List Nat) (k : Nat) (hk : k ≤ full.length)
    (cur : Int) (v : List Nat) (c2 : Int)
    (h : parseStringP (full.take k) cur = .ok (v, c2)) :
    ∃ v2, parseStringP full cur = .ok (v2, c2) := by
  unfold parseStringP at h ⊢
  by_cases h36 : byteAt (full.take k) cur = some 36
  · obtain ⟨h36f, _, _⟩ := byteAt_take_some full k cur 36 h36
    rw [if_pos h36] at h
    rw [if_pos h36f]
    cases hpe : parseElement (full.take k) (cur + 1) with
    | error e =>
        rw [hpe] at h
        exact absurd h (by simp)
    | ok pr =>
        obtain ⟨lenStr, ce⟩ := pr
        rw [hpe] at h
        dsimp only at h
        rw [parseElement_take full k hk (cur + 1) lenStr ce hpe]
        dsimp only
        cases hn : jsNumber lenStr with
        | none =>
            rw [hn] at h
            exact absurd h (by simp)
        | some L =>
            rw [hn] at h
            dsimp only at h ⊢
            have hc : ce + L + 2 = c2 := congrArg Prod.snd (Except.ok.inj h)
            exact ⟨readBytesVal full ce L, by rw [hc]⟩
  · by_cases h43 : byteAt (full.take k) cur = some 43
    · obtain ⟨h43f, _, _⟩ := byteAt_take_some full k cur 43 h43
      rw [if_neg h36, if_pos h43] at h
      rw [if_neg (by rw [h43f]; simp), if_pos h43f]
      exact ⟨v, parseElement_take full k hk (cur + 1) v c2 h⟩
    · rw [if_neg h36, if_neg h43] at h
      exact absurd h (by simp)

theorem arrLoop_take (full : List Nat) (k : Nat) (hk : k ≤ full.length) :
    ∀ (n : Nat) (cur : Int) (accP accF arr : List (List Nat)) (c2 : Int),
    accF.length = accP.length →
    arrLoop (full.take k) n cur accP = .ok (arr, c2) →
    ∃ arr2, arrLoop full n cur accF = .ok (arr2, c2) ∧ arr2.length = arr.length := by
  intro n
  induction n with
  | zero =>
    intro cur accP accF arr c2 hlen h
    rw [arrLoop] at h
    obtain ⟨ha, hc⟩ := Prod.mk.inj (Except.ok.inj h)
    exact ⟨accF, by rw [arrLoop, hc], by rw [← ha, hlen]⟩
  | succ n ih =>
    intro cur accP accF arr c2 hlen h
    rw [arrLoop] at h
    cases hps : parseStringP (full.take k) cur with
    | error e =>
        rw [hps] at h
        exact absurd h (by simp)
    | ok pr =>
        obtain ⟨s, cs⟩ := pr
        rw [hps] at h
        dsimp only at h
        obtain ⟨s2, hps2⟩ := parseStringP_take full k hk cur s cs hps
        rw [arrLoop, hps2]
        dsimp only
        exact ih cs (accP ++ [s]) (accF ++ [s2]) arr c2 (by simp [hlen]) h

theorem parseArrayP_take (full : List Nat) (k : Nat) (hk : k ≤ full.length)
    (cur : Int) (arr : List (List Nat)) (c2 : Int)
    (h : parseArrayP (full.take k) cur = .ok (arr, c2)) :
    ∃ arr2, parseArrayP full cur = .ok (arr2, c2) ∧ arr2.length = arr.length := by
  unfold parseArrayP at h ⊢
  cases hpe : parseElement (full.take k) cur with
  | error e =>
      rw [hpe] at h
      exact absurd h (by simp)
  | ok pr =>
      obtain ⟨lenStr, c1⟩ := pr
      rw [hpe] at h
      dsimp only at h
      rw [parseElement_take full k hk cur lenStr c1 hpe]
      dsimp only
      exact arrLoop_take full k hk _ c1 [] [] arr c2 rfl h

/-- An encoded element list parses cleanly iff no element other than the
last one is empty (an empty element encodes as the null bulk `$-1\r\n`,
whose negative length makes the cursor overshoot by one byte, which is
fatal unless the element was the last). -/
def goodEls : List (List Nat) → Bool
  | [] => true
  | [_] => true
  | w :: rest => (decide (w ≠ [])) && goodEls rest

theorem readBytesVal_nonpos (data : List Nat) (cur n : Int)
    (h0 : 0 ≤ cur) (h1 : 0 ≤ cur + n) (h2 : n ≤ 0) :
    readBytesVal data cur n = [] := by
  unfold readBytesVal subClamp
  rw [if_pos]
  rw [if_neg (by omega), if_neg (by omega)]
  exact min_le_min (by omega) (le_refl _)

theorem parseStringP_nullBulk (pre post : List Nat) :
    parseStringP (pre ++ serialazeBulkString [] ++ post) (pre.length : Int)
      = .ok ([], (pre.length : Int) + 6) := by
  have hsbs : serialazeBulkString ([] : List Nat) = [36, 45, 49, 13, 10] := by decide
  rw [hsbs]
  unfold parseStringP
  have hb : byteAt (pre ++ [36, 45, 49, 13, 10] ++ post) (pre.length : Int) = some 36 := by
    rw [show pre ++ [36, 45, 49, 13, 10] ++ post
        = pre ++ 36 :: ([45, 49, 13, 10] ++ post) by simp]
    exact byteAt_prepend pre 36 _
  rw [if_pos hb]
  have hdata : pre ++ [36, 45, 49, 13, 10] ++ post
      = (pre ++ [36]) ++ ([45, 49] ++ 13 :: 10 :: post) := by simp
  have hcur : (pre.length : Int) + 1 = (((pre ++ [36]).length : Nat) : Int) := by simp
  rw [hdata, hcur, parseElement_digits (pre ++ [36]) [45, 49] post (by simp)
    (by intro c hc; simp at hc; rcases hc with rfl | rfl <;> omega)]
  dsimp only
  rw [show jsNumber [45, 49] = some (-1) by decide]
  dsimp only
  have hrb : readBytesVal ((pre ++ [36]) ++ ([45, 49] ++ 13 :: 10 :: post))
      (((((pre ++ [36]).length + [45, 49].length + 2 : Nat)) : Int)) (-1) = [] := by
    apply readBytesVal_nonpos
    · positivity
    · push_cast [List.length_append]
      omega
    · omega
  rw [hrb]
  have : (((((pre ++ [36]).length + [45, 49].length + 2 : Nat)) : Int)) + (-1) + 2
      = (pre.length : Int) + 6 := by
    push_cast [List.length_append, List.length_cons, List.length_nil]
    ring
  rw [this]

theorem serialazeBulkString_shape (r : List Nat) :
    ∃ c cs, serialazeBulkString r = 36 :: c :: cs ∧ c ≠ 36 ∧ c ≠ 43 := by
  by_cases hr : r = []
  · subst hr
    exact ⟨45, [49, 13, 10], by decide, by omega, by omega⟩
  · obtain ⟨d, ds, hds⟩ := List.exists_cons_of_ne_nil (natToAscii_ne_nil r.length)
    have hd := natToAscii_digits r.length d (by rw [hds]; exact List.mem_cons_self d ds)
    refine ⟨d, ds ++ [13, 10] ++ r ++ [13, 10], ?_, by omega, by omega⟩
    unfold serialazeBulkString
    rw [if_neg hr, hds]
    simp

theorem arrLoop_lower (els : List (List Nat)) : ∀ (pre post : List Nat) (acc : List (List Nat)),
    goodEls els = true →
    ∃ c2 : Int, arrLoop (pre ++ (els.map serialazeBulkString).flatten ++ post) els.length
        (pre.length : Int) acc = .ok (acc ++ els, c2)
      ∧ ((pre.length + ((els.map serialazeBulkString).flatten).length : Nat) : Int) ≤ c2 := by
  induction els with
  | nil =>
    intro pre post acc _
    exact ⟨(pre.length : Int), by simp [arrLoop], by simp⟩
  | cons w rest ih =>
    intro pre post acc hg
    cases rest with
    | nil =>
      by_cases hw : w = []
      · subst hw
        refine ⟨(pre.length : Int) + 6, ?_, ?_⟩
        · rw [show (([] : List Nat) :: []).length = 1 from rfl]
          rw [arrLoop]
          rw [show pre ++ ((([] : List Nat) :: []).map serialazeBulkString).flatten ++ post
              = pre ++ serialazeBulkString [] ++ post by simp]
          rw [parseStringP_nullBulk pre post]
          dsimp only
          rw [arrLoop]
        · have : serialazeBulkString ([] : List Nat) = [36, 45, 49, 13, 10] := by decide
          simp [this]
      · refine ⟨(((pre.length + (serialazeBulkString w).length : Nat)) : Int), ?_, ?_⟩
        · rw [show ((w :: []).length) = 1 from rfl]
          rw [arrLoop]
          rw [show pre ++ ((w :: []).map serialazeBulkString).flatten ++ post
              = pre ++ serialazeBulkString w ++ post by simp]
          rw [parseStringP_bulk pre w post hw]
          dsimp only
          rw [arrLoop]
        · simp
    | cons r rs =>
      have hg2 : w ≠ [] ∧ goodEls (r :: rs) = true := by
        rw [show goodEls (w :: r :: rs) = ((decide (w ≠ [])) && goodEls (r :: rs)) from rfl] at hg
        simpa using hg
      have hdata : pre ++ ((w :: r :: rs).map serialazeBulkString).flatten ++ post
          = pre ++ serialazeBulkString w
              ++ (((r :: rs).map serialazeBulkString).flatten ++ post) := by
        simp
      rw [show ((w :: r :: rs).length) = (r :: rs).length + 1 from rfl]
      rw [arrLoop, hdata, parseStringP_bulk pre w _ hg2.1]
      dsimp only
      have hcur : ((pre.length + (serialazeBulkString w).length : Nat) : Int)
          = (((pre ++ serialazeBulkString w).length : Nat) : Int) := by simp
      have hdata2 : pre ++ serialazeBulkString w
              ++ (((r :: rs).map serialazeBulkString).flatten ++ post)
          = (pre ++ serialazeBulkString w)
              ++ ((r :: rs).map serialazeBulkString).flatten ++ post := by simp
      rw [hcur, hdata2]
      obtain ⟨c2, hok, hge⟩ := ih (pre ++ serialazeBulkString w) post (acc ++ [w]) hg2.2
      refine ⟨c2, by rw [hok]; simp, ?_⟩
      have : (((pre ++ serialazeBulkString w).length
            + (((r :: rs).map serialazeBulkString).flatten).length : Nat) : Int)
          = ((pre.length
            + (((w :: r :: rs).map serialazeBulkString).flatten).length : Nat) : Int) := by
        push_cast [List.length_append, List.map_cons, List.flatten_cons]
        ring
      omega

theorem arrLoop_bad (els : List (List Nat)) : ∀ (pre post : List Nat) (acc : List (List Nat)),
    goodEls els = false →
    ∃ e, arrLoop (pre ++ (els.map serialazeBulkString).flatten ++ post) els.length
        (pre.length : Int) acc = .error e := by
  induction els with
  | nil => intro pre post acc hg; exact absurd hg (by simp [goodEls])
  | cons w rest ih =>
    intro pre post acc hg
    cases rest with
    | nil => exact absurd hg (by simp [goodEls])
    | cons r rs =>
      rw [show goodEls (w :: r :: rs) = ((decide (w ≠ [])) && goodEls (r :: rs)) from rfl] at hg
      by_cases hw : w = []
      · subst hw
        refine ⟨.expectingString, ?_⟩
        rw [show ((([] : List Nat) :: r :: rs).length) = (r :: rs).length + 1 from rfl]
        rw [arrLoop]
        have hdata : pre ++ ((([] : List Nat) :: r :: rs).map serialazeBulkString).flatten ++ post
            = pre ++ serialazeBulkString []
                ++ (((r :: rs).map serialazeBulkString).flatten ++ post) := by
          simp
        rw [hdata, parseStringP_nullBulk pre _]
        dsimp only
        rw [show ((r :: rs).length) = rs.length + 1 from rfl]
        rw [arrLoop]
        obtain ⟨c, cs, hshape, hc36, hc43⟩ := serialazeBulkString_shape r
        have hb : byteAt (pre ++ serialazeBulkString []
              ++ (((r :: rs).map serialazeBulkString).flatten ++ post))
            ((pre.length : Int) + 6) = some c := by
          have hdata2 : pre ++ serialazeBulkString []
                ++ (((r :: rs).map serialazeBulkString).flatten ++ post)
              = (pre ++ [36, 45, 49, 13, 10, 36])
                  ++ c :: (cs ++ ((rs.map serialazeBulkString).flatten ++ post)) := by
            rw [show serialazeBulkString ([] : List Nat) = [36, 45, 49, 13, 10] by decide]
            simp [hshape]
          have hcur : (pre.length : Int) + 6
              = (((pre ++ [36, 45, 49, 13, 10, 36]).length : Nat) : Int) := by
            simp
          rw [hdata2, hcur]
          exact byteAt_prepend _ c _
        unfold parseStringP
        rw [hb]
        rw [if_neg (by simp [hc36]), if_neg (by simp [hc43])]
      · have hg2 : goodEls (r :: rs) = false := by
          rcases Bool.and_eq_false_iff.1 hg with h | h
          · exact absurd (by simpa using h : w = []) hw
          · exact h
        rw [show ((w :: r :: rs).length) = (r :: rs).length + 1 from rfl]
        rw [arrLoop]
        have hdata : pre ++ ((w :: r :: rs).map serialazeBulkString).flatten ++ post
            = pre ++ serialazeBulkString w
                ++ (((r :: rs).map serialazeBulkString).flatten ++ post) := by
          simp
        rw [hdata, parseStringP_bulk pre w _ hw]
        dsimp only
        have hcur : ((pre.length + (serialazeBulkString w).length : Nat) : Int)
            = (((pre ++ serialazeBulkString w).length : Nat) : Int) := by simp
        have hdata2 : pre ++ serialazeBulkString w
                ++ (((r :: rs).map serialazeBulkString).flatten ++ post)
            = (pre ++ serialazeBulkString w)
                ++ ((r :: rs).map serialazeBulkString).flatten ++ post := by simp
        rw [hcur, hdata2]
        exact ih (pre ++ serialazeBulkString w) post (acc ++ [w]) hg2

theorem parseArrayP_full_good (ws : List (List Nat)) (hg : goodEls ws = true) :
    ∃ c2 : Int, parseArrayP (serialazeBulkStringArray ws) 1 = .ok (ws, c2)
      ∧ ((serialazeBulkStringArray ws).length : Int) ≤ c2 := by
  have hshape : serialazeBulkStringArray ws
      = [42] ++ (natToAscii ws.length ++ 13 :: 10 :: ((ws.map serialazeBulkString).flatten)) := by
    unfold serialazeBulkStringArray serialazeArray
    simp
  rw [hshape]
  unfold parseArrayP
  rw [show (1 : Int) = ((([42] : List Nat).length : Nat) : Int) by simp]
  rw [parseElement_digits [42] (natToAscii ws.length) _ (natToAscii_ne_nil _)
    (fun c hc => by have := natToAscii_digits ws.length c hc; omega)]
  dsimp only
  rw [jsNumber_natToAscii]
  dsimp only
  rw [Int.toNat_natCast]
  have hdata : [42] ++ (natToAscii ws.length ++ 13 :: 10 :: ((ws.map serialazeBulkString).flatten))
      = ([42] ++ natToAscii ws.length ++ [13, 10])
          ++ (ws.map serialazeBulkString).flatten ++ [] := by
    simp
  have hcur : ((([42] : List Nat).length + (natToAscii ws.length).length + 2 : Nat) : Int)
      = ((([42] ++ natToAscii ws.length ++ [13, 10]).length : Nat) : Int) := by
    push_cast [List.length_append, List.length_cons, List.length_nil]
    omega
  rw [hdata, hcur]
  obtain ⟨c2, hok, hge⟩ := arrLoop_lower ws ([42] ++ natToAscii ws.length ++ [13, 10]) [] [] hg
  refine ⟨c2, by rw [hok]; simp, ?_⟩
  have h2 : (((([42] ++ natToAscii ws.length ++ [13, 10])
        ++ (ws.map serialazeBulkString).flatten ++ []).length : Nat) : Int)
      = ((([42] ++ natToAscii ws.length ++ [13, 10]).length : Nat) : Int)
        + (((ws.map serialazeBulkString).flatten).length : Int) := by
    push_cast [List.length_append, List.length_nil]
    ring
  push_cast at hge
  omega

theorem parseArrayP_full_bad (ws : List (List Nat)) (hg : goodEls ws = false) :
    ∃ e, parseArrayP (serialazeBulkStringArray ws) 1 = .error e := by
  have hshape : serialazeBulkStringArray ws
      = [42] ++ (natToAscii ws.length ++ 13 :: 10 :: ((ws.map serialazeBulkString).flatten)) := by
    unfold serialazeBulkStringArray serialazeArray
    simp
  rw [hshape]
  unfold parseArrayP
  rw [show (1 : Int) = ((([42] : List Nat).length : Nat) : Int) by simp]
  rw [parseElement_digits [42] (natToAscii ws.length) _ (natToAscii_ne_nil _)
    (fun c hc => by have := natToAscii_digits ws.length c hc; omega)]
  dsimp only
  rw [jsNumber_natToAscii]
  dsimp only
  rw [Int.toNat_natCast]
  have hdata : [42] ++ (natToAscii ws.length ++ 13 :: 10 :: ((ws.map serialazeBulkString).flatten))
      = ([42] ++ natToAscii ws.length ++ [13, 10])
          ++ (ws.map serialazeBulkString).flatten ++ [] := by
    simp
  have hcur : ((([42] : List Nat).length + (natToAscii ws.length).length + 2 : Nat) : Int)
      = ((([42] ++ natToAscii ws.length ++ [13, 10]).length : Nat) : Int) := by
    push_cast [List.length_append, List.length_cons, List.length_nil]
    omega
  rw [hdata, hcur]
  exact arrLoop_bad ws ([42] ++ natToAscii ws.length ++ [13, 10]) [] [] hg

theorem byteAt_zero (b : Nat) (t : List Nat) : byteAt (b :: t) 0 = some b := by
  unfold byteAt
  simp

theorem serialazeBulkStringArray_head (ws : List (List Nat)) :
    ∃ t, serialazeBulkStringArray ws = 42 :: t := by
  unfold serialazeBulkStringArray serialazeArray
  exact ⟨_, rfl⟩

theorem parsePrefix_cases (ws : List (List Nat)) (hne : ws ≠ [])
    (k : Nat) (hk : k < (serialazeBulkStringArray ws).length) :
    (∃ e, parseCommands ((serialazeBulkStringArray ws).take k) = .error e) ∨
    (∃ cs, parseCommands ((serialazeBulkStringArray ws).take k) = .ok cs ∧ cs.length ≤ 1) := by
  have hkle : k ≤ (serialazeBulkStringArray ws).length := le_of_lt hk
  have hPlen : ((serialazeBulkStringArray ws).take k).length = k :=
    length_take_of_le _ _ hkle
  unfold parseCommands
  rw [hPlen]
  cases k with
  | zero =>
    right
    refine ⟨[], ?_, by simp⟩
    rw [parseLoop, if_pos (by simp)]
  | succ k' =>
    rw [parseLoop]
    rw [if_neg (by rw [hPlen]; push_cast; omega)]
    have hb42 : byteAt ((serialazeBulkStringArray ws).take (k' + 1)) 0 = some 42 := by
      rw [byteAt_take_lt _ (k' + 1) hkle 0 (by positivity)]
      obtain ⟨t, ht⟩ := serialazeBulkStringArray_head ws
      rw [ht]
      exact byteAt_zero 42 t
    rw [if_pos hb42]
    cases hpa : parseArrayP ((serialazeBulkStringArray ws).take (k' + 1)) (0 + 1) with
    | error e =>
        left
        exact ⟨e, rfl⟩
    | ok pr =>
        obtain ⟨arr, c2⟩ := pr
        dsimp only
        have hpa1 : parseArrayP ((serialazeBulkStringArray ws).take (k' + 1)) 1
            = .ok (arr, c2) := by
          rw [show (0 : Int) + 1 = 1 by ring] at hpa
          exact hpa
        obtain ⟨arr2, hpaF, hlen2⟩ :=
          parseArrayP_take (serialazeBulkStringArray ws) (k' + 1) hkle 1 arr c2 hpa1
        by_cases hg : goodEls ws = true
        · obtain ⟨c2', hok, hge⟩ := parseArrayP_full_good ws hg
          rw [hpaF] at hok
          have hinj := Except.ok.inj hok
          have harr2 : arr2 = ws := congrArg Prod.fst hinj
          have hc2eq : c2 = c2' := congrArg Prod.snd hinj
          have hc2 : ((serialazeBulkStringArray ws).length : Int) ≤ c2 := by
            rw [hc2eq]
            exact hge
          have harrlen : arr.length = ws.length := by
            rw [← hlen2, harr2]
          cases arr with
          | nil =>
              exfalso
              exact hne (List.length_eq_zero.1 (by simpa using harrlen.symm))
          | cons a rest =>
              dsimp only
              right
              refine ⟨[⟨upperBytes a, rest, c2 - 0⟩], ?_, by simp⟩
              rw [parseLoop]
              rw [if_pos (by
                rw [hPlen]
                push_cast at hc2 ⊢
                omega)]
              simp
        · obtain ⟨e, herr⟩ := parseArrayP_full_bad ws (by
            rwa [Bool.not_eq_true] at hg)
          rw [hpaF] at herr
          exact absurd herr (by simp)

/-! ## Data store (`main.ts` types, `commands.ts` helpers)

Keys and string values are byte strings.  Stream entry-ids are stored in
the source as canonical `"<ms>-<seq>"` strings; splitting such a string on
`-` and applying `Number` recovers the pair, so ids are modelled directly
as `Nat × Nat` pairs.  `db` is a JS `Map`: an insertion-ordered
association list where `set` overwrites in place. -/

/-- One stream entry: its id and the `{key, value}` pairs. -/
structure StreamEntry where
  id : Nat × Nat
  fields : List (List Nat × List Nat)
deriving DecidableEq, Repr

/-- A stored value: a string with optional expiry (absolute ms, `bigint`
in the source) or a stream with its entries and `lastId`. -/
inductive DBValue where
  | str (value : List Nat) (expire : Option Int)
  | stream (entries : List StreamEntry) (lastId : Nat × Nat)
deriving DecidableEq, Repr

/-- The keyed store. -/
def DB := List (List Nat × DBValue)

instance : DecidableEq DB := by
  unfold DB
  infer_instance

/-- `Map.get`. -/
def dbGet (db : DB) (k : List Nat) : Option DBValue :=
  match db with
  | [] => none
  | (k2, v) :: rest => if k2 = k then some v else dbGet rest k

/-- `Map.set`: overwrite in place, else append (insertion order kept). -/
def dbSet (db : DB) (k : List Nat) (v : DBValue) : DB :=
  match db with
  | [] => [(k, v)]
  | (k2, v2) :: rest => if k2 = k then (k2, v) :: rest else (k2, v2) :: dbSet rest k v

/-- `Map.keys` in insertion order. -/
def dbKeys (db : DB) : List (List Nat) := db.map (·.1)

/-- `Map.set` on a stream's entry map. -/
def entriesSet (entries : List StreamEntry) (id : Nat × Nat)
    (fields : List (List Nat × List Nat)) : List StreamEntry :=
  match entries with
  | [] => [⟨id, fields⟩]
  | e :: rest => if e.id = id then ⟨id, fields⟩ :: rest else e :: entriesSet rest id fields

/-- `"<ms>-<seq>"` rendering of an entry id. -/
def renderId (p : Nat × Nat) : List Nat := natToAscii p.1 ++ [45] ++ natToAscii p.2

/-- Strict lexicographic order on `(ms, seq)` entry ids. -/
def idLt (a b : Nat × Nat) : Prop := a.1 < b.1 ∨ (a.1 = b.1 ∧ a.2 < b.2)

instance (a b : Nat × Nat) : Decidable (idLt a b) := by
  unfold idLt
  infer_instance

/-- The id argument of `XADD`: `*`, `<ms>-*`, or explicit `<ms>-<seq>`
(with canonical decimal numerals, so JS `Number` recovers the values). -/
inductive EntryIdArg where
  | star
  | msStar (ms : Nat)
  | explicit (ms seq : Nat)
deriving DecidableEq, Repr

/-- `validateEntryId(newEntryId, lastEntryId = "0-0")` from `commands.ts`:
returns the error message or the accepted concrete id.  `now` is
`Date.now()`. -/
def validateEntryId (arg : EntryIdArg) (now : Nat) (last : Nat × Nat) :
    Except String (Nat × Nat) :=
  match arg with
  | .star =>
      -- timeStamp = Date.now(); seq = last.seq + 1 iff last.ms == timeStamp
      .ok (now, if last.1 = now then last.2 + 1 else 0)
  | .msStar ms =>
      -- isNaN(Number(time)) is false for a numeral; the `<= 0` test compares
      -- the sequence part "*" as NaN, so it never fires here
      if ms < last.1 then
        .error "ERR The ID specified in XADD is equal or smaller than the target stream top item"
      else
        .ok (ms, if ms = last.1 then last.2 + 1 else if ms = 0 then 1 else 0)
  | .explicit ms seq =>
      if ms = 0 ∧ seq = 0 then
        .error "ERR The ID specified in XADD must be greater than 0-0"
      else if ms < last.1 then
        .error "ERR The ID specified in XADD is equal or smaller than the target stream top item"
      else if ms = last.1 ∧ seq ≤ last.2 then
        .error "ERR The ID specified in XADD is equal or smaller than the target stream top item"
      else .ok (ms, seq)

/-- `commands.XADD` (key/id arity checks already passed): returns the new
store and the response bytes. -/
def XADD (now : Nat) (db : DB) (streamKey : List Nat) (entryId : EntryIdArg)
    (values : List (List Nat × List Nat)) : DB × List Nat :=
  match dbGet db streamKey with
  | some (.str _ _) =>
      (db, serialazeSimpleError
        (strBytes "WRONGTYPE Operation against a key holding the wrong kind of value"))
  | some (.stream entries lastId) =>
      match validateEntryId entryId now lastId with
      | .error e => (db, serialazeSimpleError (strBytes e))
      | .ok newId =>
          (dbSet db streamKey (.stream (entriesSet entries newId values) newId),
           serialazeBulkString (renderId newId))
  | none =>
      match validateEntryId entryId now (0, 0) with
      | .error e => (db, serialazeSimpleError (strBytes e))
      | .ok newId =>
          (dbSet db streamKey (.stream [⟨newId, values⟩] newId),
           serialazeBulkString (renderId newId))

/-- Start or end argument of `XRANGE`: `"<ms>"` or `"<ms>-<seq>"` (canonical
decimal numerals, so `split("-").map(Number)` recovers the parts). -/
structure RangeArg where
  ms : Nat
  seq : Option Nat
deriving DecidableEq, Repr

/-- `x > bound` where `bound` may be `Infinity` (`none`). -/
def gtOptInf (x : Nat) : Option Nat → Bool
  | none => false
  | some m => decide (m < x)

/-- `endTimeSeq.at(1) || Infinity`: an absent or zero seq is falsy and
falls back to `Infinity`. -/
def resolveEndSeq : Option Nat → Option Nat
  | none => none
  | some 0 => none
  | some (n + 1) => some (n + 1)

/-- The `continue` conditions of the `XRANGE` loop, negated. -/
def xrangeKeep (startTime startSeq : Nat) (endTimeInf endSeqInf : Option Nat)
    (e : StreamEntry) : Bool :=
  !(decide (e.id.1 < startTime) || gtOptInf e.id.1 endTimeInf)
    && !(decide (e.id.1 = startTime)
          && (decide (e.id.2 < startSeq) || gtOptInf e.id.2 endSeqInf))

/-- The entries `XRANGE` emits, in stream order.  `startTime = ms || 0` and
`startSeq = seq || 0` are the identity on naturals; `endTime = ms || Infinity`
and `endSeq = seq || Infinity` turn an absent or zero field into `Infinity`. -/
def xrangeEntries (startA endA : RangeArg) (entries : List StreamEntry) :
    List StreamEntry :=
  entries.filter (xrangeKeep startA.ms (startA.seq.getD 0)
    (if endA.ms = 0 then none else some endA.ms) (resolveEndSeq endA.seq))

/-- `[id, [field, value, …]]` encoding of one entry. -/
def serializeEntry (e : StreamEntry) : List Nat :=
  serialazeArray [serialazeBulkString (renderId e.id),
    serialazeBulkStringArray ((e.fields.map (fun p => [p.1, p.2])).flatten)]

/-- `commands.XRANGE` (arity checks already passed). -/
def XRANGE (db : DB) (streamKey : List Nat) (startA endA : RangeArg) : List Nat :=
  match dbGet db streamKey with
  | none => serialazeArray []
  | some (.str _ _) =>
      serialazeSimpleError
        (strBytes "WRONGTYPE Operation against a key holding the wrong kind of value")
  | some (.stream entries _) =>
      serialazeArray ((xrangeEntries startA endA entries).map serializeEntry)

/-- An id argument of `XREAD`: `"$"` or `"<ms>-<seq>"` (arguments without a
dash are classified as stream keys by the source, so a bare `"<ms>"` cannot
reach this point). -/
inductive XreadId where
  | dollar
  | id (t s : Nat)
deriving DecidableEq, Repr

/-- `startIds[i] === "$" ? stream.lastId : startIds[i]`. -/
def xreadStart (i : XreadId) (lastId : Nat × Nat) : Nat × Nat :=
  match i with
  | .dollar => lastId
  | .id t s => (t, s)

/-- The `continue` conditions of the `XREAD` loop, negated. -/
def xreadKeep (st : Nat × Nat) (e : StreamEntry) : Bool :=
  !(decide (e.id.1 < st.1)) && !(decide (e.id.1 = st.1) && decide (e.id.2 < st.2))

/-- The per-key results of a non-blocking `XREAD`: missing keys are
skipped, a present non-stream key aborts with `WRONGTYPE`. -/
def xreadStreams (db : DB) : List (List Nat × XreadId) →
    Except (List Nat) (List (List Nat × List StreamEntry))
  | [] => .ok []
  | (k, i) :: rest =>
      match dbGet db k with
      | none => xreadStreams db rest
      | some (.str _ _) =>
          .error (serialazeSimpleError
            (strBytes "WRONGTYPE Operation against a key holding the wrong kind of value"))
      | some (.stream entries lastId) =>
          match xreadStreams db rest with
          | .error e => .error e
          | .ok tail => .ok ((k, entries.filter (xreadKeep (xreadStart i lastId))) :: tail)

/-- `entry.expire && entry.expire - BigInt(Date.now()) <= 0`: a `0n` expiry
is falsy and therefore never counts as expired. -/
def isExpired (expire : Option Int) (now : Int) : Bool :=
  match expire with
  | none => false
  | some t => decide (t ≠ 0) && decide (t - now ≤ 0)

/-- `commands.GET`: a falsy or missing key and an expired string value all
reply with `serialazeBulkString("")`, the null bulk. -/
def GET (db : DB) (now : Int) (key : Option (List Nat)) : List Nat :=
  match key with
  | none => serialazeBulkString []
  | some k =>
      if k = [] then serialazeBulkString []
      else
        match dbGet db k with
        | none => serialazeBulkString []
        | some (.str v ex) =>
            if isExpired ex now then serialazeBulkString [] else serialazeBulkString v
        | some (.stream _ _) =>
            serialazeSimpleError
              (strBytes "WRONGTYPE Operation against a key holding the wrong kind of value")

/-- `commands.TYPE`: present entries report their type tag regardless of
expiry. -/
def TYPE (db : DB) (key : Option (List Nat)) : List Nat :=
  match key with
  | none => serialazeSimpleError (strBytes "ERR wrong number of arguments for 'type' command")
  | some k =>
      if k = [] then
        serialazeSimpleError (strBytes "ERR wrong number of arguments for 'type' command")
      else
        match dbGet db k with
        | none => serialazeSimpleString (strBytes "none")
        | some (.str _ _) => serialazeSimpleString (strBytes "string")
        | some (.stream _ _) => serialazeSimpleString (strBytes "stream")

/-- `commands.KEYS`: `*` lists every key in insertion order (expired ones
included); other patterns reply with an empty bulk. -/
def KEYS (db : DB) (arg : Option (List Nat)) : List Nat :=
  match arg with
  | none => serialazeSimpleError (strBytes "ERR wrong number of arguments for 'keys' command")
  | some a =>
      if a = [] then
        serialazeSimpleError (strBytes "ERR wrong number of arguments for 'keys' command")
      else if a = strBytes "*" then
        serialazeArray ((dbKeys db).map serialazeBulkString)
      else serialazeBulkString []

/-- `commands.SET` with the arity checks passed; `px` is the already
converted `BigInt(args[3])` when `PX` was given. -/
def SET (now : Int) (db : DB) (key value : List Nat) (px : Option Int) : DB × List Nat :=
  match px with
  | some ms => (dbSet db key (.str value (some (now + ms))),
                serialazeSimpleString (strBytes "OK"))
  | none => (dbSet db key (.str value none), serialazeSimpleString (strBytes "OK"))

/-- `commands.INCR`. -/
def INCR (now : Int) (db : DB) (key : Option (List Nat)) : DB × List Nat :=
  match key with
  | none => (db, serialazeSimpleError (strBytes "ERR wrong number of arguments for 'incr' command"))
  | some k =>
      if k = [] then
        (db, serialazeSimpleError (strBytes "ERR wrong number of arguments for 'incr' command"))
      else
        match dbGet db k with
        | none => ((SET now db k (strBytes "1") none).1, serialazeInteger 1)
        | some (.stream _ _) =>
            (db, serialazeSimpleError
              (strBytes "WRONGTYPE Operation against a key holding the wrong kind of value"))
        | some (.str v ex) =>
            match jsNumber v with
            | none => (db, serialazeSimpleError
                (strBytes "ERR value is not an integer or out of range"))
            | some n => (dbSet db k (.str (intToAscii (n + 1)) ex), serialazeInteger (n + 1))

/-- `commands.ECHO`: a falsy (missing or empty) argument is an arity
error. -/
def ECHO (arg : Option (List Nat)) : List Nat :=
  match arg with
  | none => serialazeSimpleError (strBytes "ERR wrong number of arguments for 'echo' command")
  | some a =>
      if a = [] then
        serialazeSimpleError (strBytes "ERR wrong number of arguments for 'echo' command")
      else serialazeBulkString a

/-- `commands.PING`. -/
def PING : List Nat := serialazeSimpleString (strBytes "PONG")

/-! ## Transactions (`MULTI`/`EXEC`, `execCommand` master path)

One connection on a master, modelled synchronously: `transactionState` is
the global `{isStarted, queue, connection}`; `txConn` says whether
`transactionState.connection` is this connection (it is set by
`execCommand` right after a `MULTI` response is written). -/

/-- The table commands a transaction can queue (everything modelled except
`EXEC`, which `execCommand` never queues). -/
inductive TInv where
  | ping
  | echo (a : Option (List Nat))
  | set (k v : List Nat) (px : Option Int)
  | get (k : Option (List Nat))
  | incr (k : Option (List Nat))
  | typeOf (k : Option (List Nat))
  | multi
deriving DecidableEq, Repr

/-- Server-side state relevant to one master connection. -/
structure Machine where
  db : DB
  txStarted : Bool
  txConn : Bool
  txQueue : List TInv
deriving DecidableEq

/-- Running one table command (`commands[name](args)`): new state and the
response.  `MULTI` only flips `isStarted` here; the `connection` assignment
lives in `step`, mirroring `execCommand`. -/
def runTable (now : Int) (m : Machine) : TInv → Machine × Option (List Nat)
  | .ping => (m, some PING)
  | .echo a => (m, some (ECHO a))
  | .set k v px => ({m with db := (SET now m.db k v px).1}, some (SET now m.db k v px).2)
  | .get k => (m, some (GET m.db now k))
  | .incr k => ({m with db := (INCR now m.db k).1}, some (INCR now m.db k).2)
  | .typeOf k => (m, some (TYPE m.db k))
  | .multi => ({m with txStarted := true}, some (serialazeSimpleString (strBytes "OK")))

/-- `commands.EXEC`'s loop: run each queued thunk in order, collecting the
defined responses. -/
def execQueue (now : Int) : Machine → List TInv → Machine × List (List Nat)
  | m, [] => (m, [])
  | m, c :: rest =>
      ((execQueue now (runTable now m c).1 rest).1,
        match (runTable now m c).2 with
        | none => (execQueue now (runTable now m c).1 rest).2
        | some x => x :: (execQueue now (runTable now m c).1 rest).2)

/-- One inbound command: a table command or `EXEC`. -/
inductive CInv where
  | cmd (c : TInv)
  | exec
deriving DecidableEq, Repr

/-- One iteration of `execCommand`'s dispatch loop for this connection
(master role): queue non-`EXEC` commands while in a transaction on this
connection, handle `EXEC`, and set `transactionState.connection` after a
`MULTI` response. -/
def step (now : Int) (m : Machine) : CInv → Machine × Option (List Nat)
  | .cmd c =>
      if m.txStarted && m.txConn then
        ({m with txQueue := m.txQueue ++ [c]},
         some (serialazeSimpleString (strBytes "QUEUED")))
      else
        (if c = .multi then {(runTable now m c).1 with txConn := true}
         else (runTable now m c).1,
         (runTable now m c).2)
  | .exec =>
      if !m.txStarted then
        (m, some (serialazeSimpleError (strBytes "ERR EXEC without MULTI")))
      else
        ({(execQueue now m m.txQueue).1 with
            txStarted := false, txConn := false, txQueue := []},
         some (serialazeArray (execQueue now m m.txQueue).2))

/-- A sequence of commands on the connection, collecting each defined
response in order (the dispatcher writes them in arrival order). -/
def processAll (now : Int) : Machine → List CInv → Machine × List (List Nat)
  | m, [] => (m, [])
  | m, i :: rest =>
      ((processAll now (step now m i).1 rest).1,
        (match (step now m i).2 with
         | none => []
         | some x => [x]) ++ (processAll now (step now m i).1 rest).2)

/-! ## RDB reader (`RDBReader.ts`)

Offsets are absolute; `DataView` accessors throw a `RangeError` when out of
range, modelled as errors.  Strings read from the buffer are kept as byte
lists. -/

/-- Decimal string of a natural (for interpolated error messages). -/
def natDecStr (n : Nat) : String :=
  String.mk ((natToAscii n).map Char.ofNat)

/-- `view.getUint8` + `offset++`. -/
def readByteR (buf : List Nat) (off : Nat) : Except String (Nat × Nat) :=
  if h : off < buf.length then .ok (buf.get ⟨off, h⟩, off + 1) else .error "RangeError"

/-- `view.getUint32(off, true)` (little endian). -/
def getUint32LE (buf : List Nat) (off : Nat) : Except String Nat :=
  if off + 4 ≤ buf.length then
    .ok (buf.getD off 0 + 256 * buf.getD (off + 1) 0
      + 65536 * buf.getD (off + 2) 0 + 16777216 * buf.getD (off + 3) 0)
  else .error "RangeError"

/-- `view.getUint32(off)` (big endian, used by `decodeSize`). -/
def getUint32BE (buf : List Nat) (off : Nat) : Except String Nat :=
  if off + 4 ≤ buf.length then
    .ok (16777216 * buf.getD off 0 + 65536 * buf.getD (off + 1) 0
      + 256 * buf.getD (off + 2) 0 + buf.getD (off + 3) 0)
  else .error "RangeError"

/-- `view.getBigUint64(off, true)` (little endian). -/
def getUint64LE (buf : List Nat) (off : Nat) : Except String Nat :=
  if off + 8 ≤ buf.length then
    .ok ((List.range 8).foldr (fun i acc => acc * 256 + buf.getD (off + i) 0) 0)
  else .error "RangeError"

/-- `RDBReader.decodeSize`. -/
def decodeSize (buf : List Nat) (off : Nat) : Except String (Nat × Nat) :=
  match readByteR buf off with
  | .error e => .error e
  | .ok (b, off1) =>
      if b / 64 = 0 then .ok (b % 64, off1)
      else if b / 64 = 1 then
        match readByteR buf off1 with
        | .error e => .error e
        | .ok (b2, off2) => .ok ((b % 64) * 256 + b2, off2)
      else if b / 64 = 2 then
        match getUint32BE buf off1 with
        | .error e => .error e
        | .ok n => .ok (n, off1 + 4)
      else .ok (b % 64, off1)

/-- `sliceTake`: `buffer.slice(off, off + len)` (clamped) read as bytes. -/
def sliceTake (buf : List Nat) (off len : Nat) : List Nat :=
  (buf.drop off).take len

/-- `RDBReader.decodeString`. -/
def decodeString (buf : List Nat) (off : Nat) : Except String (List Nat × Nat) :=
  match readByteR buf off with
  | .error e => .error e
  | .ok (peek, _) =>
      if peek / 64 = 3 then
        match decodeSize buf off with
        | .error e => .error e
        | .ok (fmt, off1) =>
            if fmt = 0 then
              match readByteR buf off1 with
              | .error e => .error e
              | .ok (b, off2) => .ok (natToAscii b, off2)
            else if fmt = 1 then
              if off1 + 2 ≤ buf.length then
                .ok (natToAscii (buf.getD off1 0 + 256 * buf.getD (off1 + 1) 0), off1 + 2)
              else .error "RangeError"
            else if fmt = 2 then
              match getUint32LE buf off1 with
              | .error e => .error e
              | .ok n => .ok (natToAscii n, off1 + 4)
            else if fmt = 3 then .error "LZF-compressed strings is not implemented"
            else
              -- fall through: none of the special formats matched, so the
              -- code below runs with the first byte already consumed
              match decodeSize buf off1 with
              | .error e => .error e
              | .ok (size, off2) => .ok (sliceTake buf off2 size, off2 + size)
      else
        match decodeSize buf off with
        | .error e => .error e
        | .ok (size, off1) => .ok (sliceTake buf off1 size, off1 + size)

/-- `RDBReader.decodeKeyValuePair`: type byte, key, then the value (only
type `0`, plain string, is supported). -/
def decodeKeyValuePair (buf : List Nat) (off : Nat) :
    Except String ((List Nat × List Nat) × Nat) :=
  match readByteR buf off with
  | .error e => .error e
  | .ok (dataType, off1) =>
      match decodeString buf off1 with
      | .error e => .error e
      | .ok (key, off2) =>
          if dataType = 0 then
            match decodeString buf off2 with
            | .error e => .error e
            | .ok (value, off3) => .ok ((key, value), off3)
          else .error ("This data type is not supported: " ++ natDecStr dataType)

/-- One `values[key] = {...}` assignment. -/
def objSet (vs : List (List Nat × List Nat × Option Int)) (k v : List Nat)
    (ex : Option Int) : List (List Nat × List Nat × Option Int) :=
  match vs with
  | [] => [(k, v, ex)]
  | (k2, p) :: rest => if k2 = k then (k2, v, ex) :: rest else (k2, p) :: objSet rest k v ex

/-- The entry loop of `decodeDB`.  In the `0xFD` branch the source reads a
32-bit little-endian seconds timestamp with `getUint32` but never advances
`this.offset` past it, so the key/value pair is parsed starting at the
first timestamp byte. -/
def decodeDBLoop (buf : List Nat) :
    Nat → Nat → List (List Nat × List Nat × Option Int) →
    Except String (List (List Nat × List Nat × Option Int) × Nat)
  | 0, off, acc => .ok (acc, off)
  | i + 1, off, acc =>
      match readByteR buf off with
      | .error e => .error e
      | .ok (b, _) =>
          if b = 0xFC then
            match getUint64LE buf (off + 1) with
            | .error e => .error e
            | .ok ts =>
                match decodeKeyValuePair buf (off + 9) with
                | .error e => .error e
                | .ok ((k, v), off2) =>
                    decodeDBLoop buf i off2 (objSet acc k v (some (ts : Int)))
          else if b = 0xFD then
            match getUint32LE buf (off + 1) with
            | .error e => .error e
            | .ok ts =>
                match decodeKeyValuePair buf (off + 1) with
                | .error e => .error e
                | .ok ((k, v), off2) =>
                    decodeDBLoop buf i off2 (objSet acc k v (some ((ts : Int) * 1000)))
          else
            match decodeKeyValuePair buf off with
            | .error e => .error e
            | .ok ((k, v), off2) => decodeDBLoop buf i off2 (objSet acc k v none)

/-- Result of `decodeDB`. -/
structure RDBDb where
  index : Nat
  tableSize : Nat
  expiryTableSize : Nat
  values : List (List Nat × List Nat × Option Int)
deriving DecidableEq, Repr

/-- `RDBReader.decodeDB`. -/
def decodeDB (buf : List Nat) (off : Nat) : Except String (RDBDb × Nat) :=
  match readByteR buf off with
  | .error e => .error e
  | .ok (opCode, _) =>
      if opCode ≠ 0xFE then .error "File reading error: SELECTDB Op Code"
      else
        match decodeSize buf (off + 1) with
        | .error e => .error e
        | .ok (dbIndex, off1) =>
            match readByteR buf off1 with
            | .error e => .error e
            | .ok (_, off2) =>
                match decodeSize buf off2 with
                | .error e => .error e
                | .ok (tableSize, off3) =>
                    match decodeSize buf off3 with
                    | .error e => .error e
                    | .ok (expiryTableSize, off4) =>
                        match decodeDBLoop buf tableSize off4 [] with
                        | .error e => .error e
                        | .ok (values, off5) =>
                            .ok (⟨dbIndex, tableSize, expiryTableSize, values⟩, off5)

/-! ## Stream id monotonicity (C1) -/

/-- One `XADD` invocation: its `Date.now()`, the key, the id argument and
the field/value pairs. -/
structure XOp where
  now : Nat
  key : List Nat
  arg : EntryIdArg
  vals : List (List Nat × List Nat)

/-- Folding a sequence of `XADD`s over the store (error replies leave the
store unchanged, as in the source). -/
def xaddFold : DB → List XOp → DB
  | db, [] => db
  | db, op :: rest => xaddFold (XADD op.now db op.key op.arg op.vals).1 rest

/-- The `last_id` the validator will compare against for a key (`0-0` when
the stream does not exist yet). -/
def lastOf (db : DB) (k : List Nat) : Nat × Nat :=
  match dbGet db k with
  | some (.stream _ lastId) => lastId
  | _ => (0, 0)

/-- The wall clock never lags a stream's `last_id.ms` at a `*` XADD. -/
def clockOk : DB → List XOp → Bool
  | _, [] => true
  | db, op :: rest =>
      (decide (op.arg = .star → (lastOf db op.key).1 ≤ op.now))
        && clockOk (XADD op.now db op.key op.arg op.vals).1 rest

/-- Every entry id is ≤ `last_id`, and `last_id` is attained when the
stream is nonempty. -/
def StreamGood (entries : List StreamEntry) (lastId : Nat × Nat) : Prop :=
  (∀ e ∈ entries, e.id = lastId ∨ idLt e.id lastId) ∧
  (entries ≠ [] → ∃ e ∈ entries, e.id = lastId)

/-- The invariant over the whole store. -/
def dbStreamsGood (db : DB) : Prop :=
  ∀ k entries lastId, dbGet db k = some (.stream entries lastId) →
    StreamGood entries lastId

theorem validateEntryId_gt (arg : EntryIdArg) (now : Nat) (last nid : Nat × Nat)
    (h : validateEntryId arg now last = .ok nid)
    (hclock : arg = .star → last.1 ≤ now) : idLt last nid := by
  cases arg with
  | star =>
      have hle := hclock rfl
      simp only [validateEntryId] at h
      have := Except.ok.inj h
      subst this
      unfold idLt
      dsimp only
      split <;> omega
  | msStar ms =>
      simp only [validateEntryId] at h
      split at h
      · exact absurd h (by simp)
      · have := Except.ok.inj h
        subst this
        unfold idLt
        dsimp only
        split
        · omega
        · split <;> omega
  | explicit ms seq =>
      simp only [validateEntryId] at h
      split at h
      · exact absurd h (by simp)
      · split at h
        · exact absurd h (by simp)
        · split at h
          · exact absurd h (by simp)
          · have := Except.ok.inj h
            subst this
            unfold idLt
            dsimp only
            omega

theorem dbGet_dbSet (db : DB) (k k2 : List Nat) (v : DBValue) :
    dbGet (dbSet db k v) k2 = if k = k2 then some v else dbGet db k2 := by
  induction db with
  | nil => rfl
  | cons p rest ih =>
      obtain ⟨pk, pv⟩ := p
      by_cases h1 : pk = k
      · subst h1
        by_cases h2 : pk = k2
        · subst h2
          simp [dbSet, dbGet]
        · simp [dbSet, dbGet, h2]
      · by_cases h2 : pk = k2
        · subst h2
          simp [dbSet, dbGet, h1, show k ≠ pk from fun hx => h1 hx.symm]
        · simp [dbSet, dbGet, h1, h2, ih]

theorem entriesSet_append (entries : List StreamEntry) (nid : Nat × Nat)
    (vals : List (List Nat × List Nat))
    (h : ∀ e ∈ entries, e.id ≠ nid) :
    entriesSet entries nid vals = entries ++ [⟨nid, vals⟩] := by
  induction entries with
  | nil => rfl
  | cons e rest ih =>
      unfold entriesSet
      rw [if_neg (h e (List.mem_cons_self e rest))]
      rw [ih (fun x hx => h x (List.mem_cons_of_mem e hx))]
      simp

theorem xadd_preserves (now : Nat) (db : DB) (key : List Nat) (arg : EntryIdArg)
    (vals : List (List Nat × List Nat))
    (hg : dbStreamsGood db)
    (hclock : arg = .star → (lastOf db key).1 ≤ now) :
    dbStreamsGood (XADD now db key arg vals).1 := by
  unfold XADD
  cases hget : dbGet db key with
  | none =>
      dsimp only
      cases hval : validateEntryId arg now (0, 0) with
      | error e => exact hg
      | ok nid =>
          dsimp only
          intro k2 entries lastId h2
          rw [dbGet_dbSet] at h2
          by_cases hk : key = k2
          · rw [if_pos hk] at h2
            have := Option.some.inj h2
            injection this with h3 h4
            subst h3
            subst h4
            constructor
            · intro e he
              simp only [List.mem_singleton] at he
              subst he
              exact Or.inl rfl
            · intro _
              exact ⟨⟨nid, vals⟩, List.mem_singleton_self _, rfl⟩
          · rw [if_neg hk] at h2
            exact hg k2 entries lastId h2
  | some dv =>
      cases dv with
      | str v ex =>
          dsimp only
          exact hg
      | stream entries lastId =>
          dsimp only
          cases hval : validateEntryId arg now lastId with
          | error e => exact hg
          | ok nid =>
              dsimp only
              have hlast : lastOf db key = lastId := by
                unfold lastOf
                rw [hget]
              have hlt : idLt lastId nid :=
                validateEntryId_gt arg now lastId nid hval
                  (fun hs => by rw [← hlast]; exact hclock hs)
              have hold := hg key entries lastId hget
              have hne : ∀ e ∈ entries, e.id ≠ nid := by
                intro e he heq
                rcases hold.1 e he with h1 | h1
                · have h2 : lastId = nid := by rw [← h1, heq]
                  unfold idLt at hlt
                  rw [h2] at hlt
                  omega
                · rw [heq] at h1
                  unfold idLt at h1 hlt
                  omega
              intro k2 entries2 lastId2 h2
              rw [dbGet_dbSet] at h2
              by_cases hk : key = k2
              · rw [if_pos hk] at h2
                have := Option.some.inj h2
                injection this with h3 h4
                subst h3
                subst h4
                rw [entriesSet_append entries nid vals hne]
                constructor
                · intro e he
                  rcases List.mem_append.1 he with h5 | h5
                  · right
                    rcases hold.1 e h5 with h6 | h6
                    · rw [h6]; exact hlt
                    · unfold idLt at h6 hlt ⊢
                      omega
                  · simp only [List.mem_singleton] at h5
                    subst h5
                    exact Or.inl rfl
                · intro _
                  exact ⟨⟨nid, vals⟩, List.mem_append.2 (Or.inr (List.mem_singleton_self _)), rfl⟩
              · rw [if_neg hk] at h2
                exact hg k2 entries2 lastId2 h2

theorem xaddFold_good : ∀ (ops : List XOp) (db : DB),
    dbStreamsGood db → clockOk db ops = true → dbStreamsGood (xaddFold db ops) := by
  intro ops
  induction ops with
  | nil => intro db hg _; exact hg
  | cons op rest ih =>
      intro db hg hc
      unfold clockOk at hc
      rw [Bool.and_eq_true] at hc
      exact ih _ (xadd_preserves op.now db op.key op.arg op.vals hg (of_decide_eq_true hc.1))
        hc.2

/-- Decidable equality for `Except`, to let `decide` evaluate concrete
parser and validator results. -/
instance {e a : Type _} [DecidableEq e] [DecidableEq a] : DecidableEq (Except e a) :=
  fun x y =>
    match x, y with
    | .error a1, .error a2 =>
        if h : a1 = a2 then .isTrue (congrArg Except.error h)
        else .isFalse (fun hx => h (Except.error.inj hx))
    | .ok a1, .ok a2 =>
        if h : a1 = a2 then .isTrue (congrArg Except.ok h)
        else .isFalse (fun hx => h (Except.ok.inj hx))
    | .error _, .ok _ => .isFalse (fun hx => Except.noConfusion hx)
    | .ok _, .error _ => .isFalse (fun hx => Except.noConfusion hx)

/-! ## Claim theorems -/

/-- C1 (counterexample): an `XADD` with id `*` taken when `Date.now()` is
behind the stream's `last_id.ms` is accepted (the validator returns an id,
and `XADD` replies with its bulk string), yet the resulting id `3-0` is
not strictly greater than the prior `last_id` `5-1`; the resulting stream
keeps the old entry `5-1` above the new `last_id`, breaking the claimed
invariant. -/
theorem xadd_star_not_monotone :
    validateEntryId .star 3 (5, 1) = .ok (3, 0) ∧
    ¬ idLt (5, 1) (3, 0) ∧
    (XADD 3 [(strBytes "s", .stream [⟨(5, 1), []⟩] (5, 1))] (strBytes "s") .star []).2
      = serialazeBulkString (renderId (3, 0)) ∧
    dbGet (XADD 3 [(strBytes "s", .stream [⟨(5, 1), []⟩] (5, 1))] (strBytes "s") .star []).1
        (strBytes "s")
      = some (.stream [⟨(5, 1), []⟩, ⟨(3, 0), []⟩] (3, 0)) :=
  ⟨by decide, by decide, rfl, rfl⟩

/-- C1 (amended): provided every `*` XADD happens at a `Date.now()` that is
not behind the stream's current `last_id.ms` (the `<ms>-*` and explicit
forms need no such clock assumption), every accepted `XADD` produces an id
strictly greater (lexicographically) than the prior `last_id`, and after
any sequence of XADDs every entry-id in a stream is ≤ its `last_id`, with
`last_id` attained by some entry. -/
theorem xadd_monotone_clock_amended :
    (∀ (arg : EntryIdArg) (now : Nat) (last nid : Nat × Nat),
        validateEntryId arg now last = .ok nid →
        (arg = .star → last.1 ≤ now) →
        idLt last nid) ∧
    (∀ (ops : List XOp) (db : DB),
        dbStreamsGood db → clockOk db ops = true →
        dbStreamsGood (xaddFold db ops)) :=
  ⟨validateEntryId_gt, fun ops db hg hc => xaddFold_good ops db hg hc⟩

/-- C1 (witness): concrete instances of both conjuncts. -/
theorem xadd_monotone_clock_witness :
    idLt (5, 1) (5, 2) ∧
    dbStreamsGood (xaddFold [] [⟨3, strBytes "s", .explicit 1 1, []⟩]) :=
  ⟨xadd_monotone_clock_amended.1 (.explicit 5 2) 0 (5, 1) (5, 2) (by decide)
      (fun h => nomatch h),
   xadd_monotone_clock_amended.2 [⟨3, strBytes "s", .explicit 1 1, []⟩] []
      (fun k e l h => by simp [dbGet] at h) (by decide)⟩

/-- C2 (counterexample): the codec encodes the empty string as the null
bulk `$-1\r\n`; parsing the single encoded command `["ECHO", ""]` succeeds
and recovers name and argument, but the reported frame length is 20 while
the buffer is 19 bytes long, so the lengths do not sum to the buffer
length. -/
theorem frame_roundtrip_null_bulk_cex :
    parseCommands (serialazeBulkStringArray [strBytes "ECHO", strBytes ""])
      = .ok [⟨strBytes "ECHO", [[]], 20⟩] ∧
    (serialazeBulkStringArray [strBytes "ECHO", strBytes ""]).length = 19 ∧
    (([⟨strBytes "ECHO", [[]], 20⟩] : List RCommand).map RCommand.length).sum
      ≠ ((serialazeBulkStringArray [strBytes "ECHO", strBytes ""]).length : Int) :=
  ⟨rfl, by decide, by decide⟩

/-- C2 (amended): for every list of commands whose words are all nonempty,
parsing the concatenation of the encoded frames succeeds and yields exactly
the commands in order — the i-th name is the upper-casing of the i-th first
word, the args are the remaining words — and the reported per-command
lengths sum to the total byte length of the buffer. -/
theorem frame_roundtrip_amended (cs : List (List (List Nat)))
    (h : ∀ ws ∈ cs, ws ≠ [] ∧ ∀ w ∈ ws, w ≠ []) :
    parseCommands ((cs.map serialazeBulkStringArray).flatten)
      = .ok (cs.map (fun ws =>
          ⟨upperBytes ws.headI, ws.tail, ((serialazeBulkStringArray ws).length : Int)⟩)) ∧
    ((cs.map (fun ws => (⟨upperBytes ws.headI, ws.tail,
          ((serialazeBulkStringArray ws).length : Int)⟩ : RCommand))).map RCommand.length).sum
      = (((cs.map serialazeBulkStringArray).flatten).length : Int) := by
  refine ⟨parseCommands_concat cs h, ?_⟩
  rw [List.map_map]
  rw [show (RCommand.length ∘ fun ws =>
      (⟨upperBytes ws.headI, ws.tail,
        ((serialazeBulkStringArray ws).length : Int)⟩ : RCommand))
      = fun ws => ((serialazeBulkStringArray ws).length : Int) from rfl]
  exact sum_cast_lengths cs

/-- C2 (witness): the round-trip at a concrete two-command pipeline. -/
theorem frame_roundtrip_witness :
    parseCommands (([[strBytes "PING"], [strBytes "ECHO", strBytes "hi"]].map
        serialazeBulkStringArray).flatten)
      = .ok [⟨strBytes "PING", [], 14⟩, ⟨strBytes "ECHO", [strBytes "hi"], 22⟩] ∧
    (([[strBytes "PING"], [strBytes "ECHO", strBytes "hi"]].map
        serialazeBulkStringArray).flatten).length = 36 := by
  have h := frame_roundtrip_amended [[strBytes "PING"], [strBytes "ECHO", strBytes "hi"]]
    (by decide)
  exact ⟨by rw [h.1]; rfl, by decide⟩

/-- C3 (counterexample): the offset does NOT always equal the cumulative
byte length of the applied frames.  A master propagating `SET k ""`
forwards the 25-byte frame
`*3\r\n$3\r\nSET\r\n$1\r\nk\r\n$-1\r\n` (the empty value is encoded as the
null bulk); the replica parses it as the single command `SET k ""` but the
reported frame length is 26 — the null bulk's `readBytes(-1)` steps the
cursor back one byte and the following `readBytes(2)` overshoots the buffer
— so after this delivery `master_repl_offset` is 26, not 25. -/
theorem replica_offset_mismatch_cex :
    (serialazeBulkStringArray [strBytes "SET", strBytes "k", []]).length = 25 ∧
    streamFromMaster (fun _ => true) 0
        [serialazeBulkStringArray [strBytes "SET", strBytes "k", []]] = 26 ∧
    parseCommands (serialazeBulkStringArray [strBytes "SET", strBytes "k", []])
      = .ok [⟨strBytes "SET", [[107], []], 26⟩] :=
  ⟨by decide, rfl, rfl⟩

/-- C3 (amended): on a replica in the streaming state, `master_repl_offset`
starts at 0 and advances exactly once per applied frame by that frame's
PARSED byte length; when every applied frame is the codec's encoding of
words that are all nonempty (so no null bulk `$-1\r\n` appears, which makes
the parsed length exceed the frame's byte count), the parsed length equals
the frame's byte length, and after applying frames totalling `L` bytes the
offset equals `L`, no matter how the frames were coalesced into byte
deliveries (the grouping is arbitrary).  `respDef` records that every
applied command produced a defined response (true of commands a master
sends), since an undefined response would end the per-delivery loop
early. -/
theorem replica_offset_invariant (respDef : RCommand → Bool)
    (groups : List (List (List (List Nat))))
    (hwf : ∀ g ∈ groups, ∀ ws ∈ g, ws ≠ [] ∧ ∀ w ∈ ws, w ≠ [])
    (hresp : ∀ c, respDef c = true) :
    streamFromMaster respDef 0
        (groups.map (fun g => (g.map serialazeBulkStringArray).flatten))
      = (((groups.map
          (fun g => ((g.map serialazeBulkStringArray).flatten).length)).sum : Nat) : Int) := by
  rw [streamFromMaster_total respDef groups 0 hwf hresp]
  ring

/-- C3 (witness): two deliveries, the first coalescing two frames. -/
theorem replica_offset_witness :
    streamFromMaster (fun _ => true) 0
        ([[[strBytes "SET", strBytes "k", strBytes "v"], [strBytes "PING"]],
          [[strBytes "REPLCONF", strBytes "GETACK", strBytes "*"]]].map
          (fun g => (g.map serialazeBulkStringArray).flatten))
      = 78 := by
  have h := replica_offset_invariant (fun _ => true)
    [[[strBytes "SET", strBytes "k", strBytes "v"], [strBytes "PING"]],
     [[strBytes "REPLCONF", strBytes "GETACK", strBytes "*"]]]
    (by decide) (fun c => rfl)
  rw [h]
  decide

/-- C4 (counterexample): the 10-byte strict prefix `*1\r\n$4\r\nEC` of the
valid encoded command `*1\r\n$4\r\nECHO\r\n` parses without error into ONE
command record named `EC` (with reported length 14), so the parser does
yield a command from a partial frame. -/
theorem partial_frame_yields_command_cex :
    10 < (serialazeBulkStringArray [strBytes "ECHO"]).length ∧
    parseCommands (List.take 10 (serialazeBulkStringArray [strBytes "ECHO"]))
      = .ok [⟨strBytes "EC", [], 14⟩] := by
  decide

/-- C4 (amended): for every strict prefix of a single valid encoded
command array, the frame parser either reports a parse error or yields at
most one command (a truncation inside the final element's payload can
produce a single truncated command record; it can never produce more). -/
theorem partial_frame_at_most_one (ws : List (List Nat)) (hne : ws ≠ [])
    (k : Nat) (hk : k < (serialazeBulkStringArray ws).length) :
    (∃ e, parseCommands ((serialazeBulkStringArray ws).take k) = .error e) ∨
    (∃ cs, parseCommands ((serialazeBulkStringArray ws).take k) = .ok cs ∧ cs.length ≤ 1) :=
  parsePrefix_cases ws hne k hk

/-- C4 (witness): the theorem applied to a 3-byte prefix of an encoded
`PING`. -/
theorem partial_frame_witness :
    (∃ e, parseCommands ((serialazeBulkStringArray [strBytes "PING"]).take 3) = .error e) ∨
    (∃ cs, parseCommands ((serialazeBulkStringArray [strBytes "PING"]).take 3) = .ok cs
      ∧ cs.length ≤ 1) :=
  partial_frame_at_most_one [strBytes "PING"] (by decide) 3 (by decide)

theorem xreadKeep_iff (st : Nat × Nat) (e : StreamEntry) :
    xreadKeep st e = true ↔ (st.1 < e.id.1 ∨ (st.1 = e.id.1 ∧ st.2 ≤ e.id.2)) := by
  unfold xreadKeep
  simp only [Bool.and_eq_true, Bool.not_eq_true', decide_eq_false_iff_not,
    Bool.and_eq_false_iff, decide_eq_true_eq]
  constructor
  · intro h
    rcases h with ⟨h1, h2⟩
    rcases h2 with h2 | h2 <;> omega
  · intro h
    constructor
    · omega
    · by_cases hq : e.id.1 = st.1
      · right
        omega
      · left
        exact hq

theorem xreadStreams_ok (db : DB) : ∀ (pairs : List (List Nat × XreadId)),
    (∀ kp ∈ pairs, ∀ v ex, dbGet db kp.1 ≠ some (.str v ex)) →
    xreadStreams db pairs = .ok (pairs.filterMap (fun kp =>
      match dbGet db kp.1 with
      | some (.stream entries lastId) =>
          some (kp.1, entries.filter (xreadKeep (xreadStart kp.2 lastId)))
      | _ => none)) := by
  intro pairs
  induction pairs with
  | nil => intro _; rfl
  | cons kp rest ih =>
      intro h
      obtain ⟨k, i⟩ := kp
      have hrest : ∀ kp ∈ rest, ∀ v ex, dbGet db kp.1 ≠ some (.str v ex) :=
        fun kp hkp => h kp (List.mem_cons_of_mem _ hkp)
      simp only [xreadStreams, List.filterMap_cons]
      cases hget : dbGet db k with
      | none => exact ih hrest
      | some dv =>
          cases dv with
          | str v ex => exact absurd hget (h (k, i) (List.mem_cons_self _ _) v ex)
          | stream entries lastId =>
              dsimp only
              rw [ih hrest]

/-- C5 (counterexample): a non-blocking `XREAD` for key `k` with id `1-1`
over a stream whose single entry has exactly id `1-1` returns that entry,
although its id is not strictly greater than the given id. -/
theorem xread_inclusive_cex :
    xreadStreams [([107], .stream [⟨(1, 1), [([102], [118])]⟩] (1, 1))]
        [([107], XreadId.id 1 1)]
      = .ok [([107], [⟨(1, 1), [([102], [118])]⟩])] ∧
    ¬ idLt (1, 1) (1, 1) := by
  refine ⟨rfl, ?_⟩
  decide

/-- C5 (amended): a non-blocking `XREAD` returns, per present stream key,
exactly the entries whose id is greater than **or equal to** (lex) the
given id, with `"$"` standing for the stream's `last_id`; missing keys are
skipped, and a present key of the wrong type aborts with `WRONGTYPE`. -/
theorem xread_entries_amended :
    (∀ (st : Nat × Nat) (entries : List StreamEntry) (e : StreamEntry),
        e ∈ entries.filter (xreadKeep st) ↔
          e ∈ entries ∧ (st.1 < e.id.1 ∨ (st.1 = e.id.1 ∧ st.2 ≤ e.id.2))) ∧
    (∀ (db : DB) (pairs : List (List Nat × XreadId)),
        (∀ kp ∈ pairs, ∀ v ex, dbGet db kp.1 ≠ some (.str v ex)) →
        xreadStreams db pairs = .ok (pairs.filterMap (fun kp =>
          match dbGet db kp.1 with
          | some (.stream entries lastId) =>
              some (kp.1, entries.filter (xreadKeep (xreadStart kp.2 lastId)))
          | _ => none))) := by
  constructor
  · intro st entries e
    rw [List.mem_filter, xreadKeep_iff]
  · exact fun db pairs h => xreadStreams_ok db pairs h

/-- C5 (witness): the per-key characterization at a concrete store with a
`$` id. -/
theorem xread_entries_witness :
    xreadStreams [([107], DBValue.stream [⟨(2, 0), []⟩] (2, 0))]
        [([107], XreadId.dollar)]
      = .ok ([([107], XreadId.dollar)].filterMap (fun kp =>
          match dbGet [([107], DBValue.stream [⟨(2, 0), []⟩] (2, 0))] kp.1 with
          | some (.stream entries lastId) =>
              some (kp.1, entries.filter (xreadKeep (xreadStart kp.2 lastId)))
          | _ => none)) :=
  xread_entries_amended.2 [([107], DBValue.stream [⟨(2, 0), []⟩] (2, 0))]
    [([107], XreadId.dollar)]
    (by
      intro kp hkp v ex hx
      simp only [List.mem_singleton] at hkp
      rw [hkp] at hx
      simp [dbGet] at hx)

theorem xrangeKeep_iff (sT sS : Nat) (eT : Nat) (eS : Option Nat)
    (heT : eT ≠ 0) (heS : eS ≠ some 0) (e : StreamEntry) :
    (xrangeKeep sT sS (if eT = 0 then none else some eT) (resolveEndSeq eS) e = true) ↔
    (sT ≤ e.id.1 ∧ e.id.1 ≤ eT ∧
      (e.id.1 = sT → sS ≤ e.id.2 ∧ ∀ m, eS = some m → e.id.2 ≤ m)) := by
  rw [if_neg heT]
  cases eS with
  | none =>
      unfold xrangeKeep resolveEndSeq gtOptInf
      simp
      omega
  | some s =>
      cases s with
      | zero => exact absurd rfl heS
      | succ s =>
          unfold xrangeKeep resolveEndSeq gtOptInf
          simp
          omega

/-- C6 (counterexample): `XRANGE k 1-0 2-1` on a stream holding the single
entry `2-5` returns that entry, although `2-5` is lexicographically above
the end id `2-1` — the seq bound of the end is only enforced for entries
whose ms equals the start ms. -/
theorem xrange_end_seq_cex :
    XRANGE [([107], .stream [⟨(2, 5), []⟩] (2, 5))] [107] ⟨1, some 0⟩ ⟨2, some 1⟩
      = serialazeArray [serializeEntry ⟨(2, 5), []⟩] ∧
    ¬ ((2 : Nat) < 2 ∨ ((2 : Nat) = 2 ∧ (5 : Nat) ≤ 1)) := by
  refine ⟨rfl, ?_⟩
  decide

/-- C6 (amended): for an end id with nonzero ms and seq (the falsy-zero
fallback to `Infinity` aside), `XRANGE key start end` on a stream returns
exactly the entries whose ms lies in `[start.ms, end.ms]` and whose seq,
**only when the entry's ms equals start.ms**, lies in
`[start.seq (default 0), end.seq (default ∞)]`; entries with a different
ms are not seq-filtered.  A missing stream yields the empty array and a
string key the `WRONGTYPE` error. -/
theorem xrange_amended :
    (∀ (startA endA : RangeArg) (entries : List StreamEntry) (e : StreamEntry),
        endA.ms ≠ 0 → endA.seq ≠ some 0 →
        (e ∈ xrangeEntries startA endA entries ↔
          e ∈ entries ∧ startA.ms ≤ e.id.1 ∧ e.id.1 ≤ endA.ms ∧
            (e.id.1 = startA.ms →
              startA.seq.getD 0 ≤ e.id.2 ∧ ∀ m, endA.seq = some m → e.id.2 ≤ m))) ∧
    (∀ (db : DB) (key : List Nat) (startA endA : RangeArg),
        dbGet db key = none → XRANGE db key startA endA = serialazeArray []) ∧
    (∀ (db : DB) (key : List Nat) (startA endA : RangeArg) (v : List Nat) (ex : Option Int),
        dbGet db key = some (.str v ex) →
        XRANGE db key startA endA = serialazeSimpleError
          (strBytes "WRONGTYPE Operation against a key holding the wrong kind of value")) ∧
    (∀ (db : DB) (key : List Nat) (startA endA : RangeArg)
        (entries : List StreamEntry) (lastId : Nat × Nat),
        dbGet db key = some (.stream entries lastId) →
        XRANGE db key startA endA
          = serialazeArray ((xrangeEntries startA endA entries).map serializeEntry)) := by
  refine ⟨?_, ?_, ?_, ?_⟩
  · intro startA endA entries e h1 h2
    unfold xrangeEntries
    rw [List.mem_filter, xrangeKeep_iff startA.ms (startA.seq.getD 0) endA.ms endA.seq h1 h2 e]
  · intro db key startA endA h
    unfold XRANGE
    rw [h]
  · intro db key startA endA v ex h
    unfold XRANGE
    rw [h]
  · intro db key startA endA entries lastId h
    unfold XRANGE
    rw [h]

/-- C6 (witness): the characterization at a concrete entry inside the
range. -/
theorem xrange_witness :
    (⟨(2, 2), []⟩ : StreamEntry) ∈ xrangeEntries ⟨1, none⟩ ⟨3, some 7⟩ [⟨(2, 2), []⟩] ↔
      (⟨(2, 2), []⟩ : StreamEntry) ∈ ([⟨(2, 2), []⟩] : List StreamEntry) ∧
        (1 : Nat) ≤ 2 ∧ (2 : Nat) ≤ 3 ∧
        ((2 : Nat) = 1 → (0 : Nat) ≤ 2 ∧ ∀ m, (some 7 : Option Nat) = some m → (2 : Nat) ≤ m) :=
  xrange_amended.1 ⟨1, none⟩ ⟨3, some 7⟩ [⟨(2, 2), []⟩] ⟨(2, 2), []⟩
    (by decide) (by decide)

/-- C7: the claim is right and the code is wrong.  On an RDB buffer whose
single entry carries a `0xFD` (seconds) expiry, `decodeDB` reads the
32-bit little-endian timestamp but never advances the offset past it
(unlike the `0xFC` branch, which does `offset += 8`), so the key/value
parse starts at the first timestamp byte and here mistakes timestamp byte
`100` for a value-type tag, aborting with an "unsupported type" error
instead of parsing the entry `k -> v` with expiry `100 * 1000` ms. -/
theorem rdb_fd_opcode_misparse :
    decodeDB [0xFE, 0, 0xFB, 1, 0, 0xFD, 100, 0, 0, 0, 0, 1, 107, 1, 118] 0
      = .error "This data type is not supported: 100" ∧
    decodeDB [0xFE, 0, 0xFB, 1, 0, 0xFC, 100, 0, 0, 0, 0, 0, 0, 0, 0, 1, 107, 1, 118] 0
      = .ok (⟨0, 1, 0, [([107], [118], some 100)]⟩, 19) := by
  refine ⟨rfl, rfl⟩

/-- C8 (counterexample): a stored string whose expiry timestamp is `0` has
expired at `now = 5` (the timestamp has passed), yet `GET` returns the
value rather than the null bulk: the `entry.expire &&` guard treats the
`0n` expiry as "no expiry". -/
theorem get_zero_expiry_cex :
    GET [([107], .str [97] (some 0))] 5 (some [107]) = serialazeBulkString [97] ∧
    serialazeBulkString [97] ≠ serialazeBulkString [] ∧
    (0 : Int) ≤ 5 := by
  refine ⟨rfl, ?_, ?_⟩ <;> decide

/-- C8 (amended): the codec encodes the empty string as the null bulk
`$-1\r\n` and every nonempty string `s` as `$<len>\r\n<s>\r\n`; `GET k`
returns the bulk string of a present, non-expired string value, the null
bulk when the key is missing or the value has expired — where "expired"
means the expiry is present, **nonzero**, and ≤ now — and `WRONGTYPE` when
the key holds a stream. -/
theorem get_bulk_amended :
    (serialazeBulkString [] = strBytes "$-1\r\n") ∧
    (∀ s : List Nat, s ≠ [] →
        serialazeBulkString s = 36 :: natToAscii s.length ++ [13, 10] ++ s ++ [13, 10]) ∧
    (∀ (db : DB) (now : Int) (k v : List Nat) (ex : Option Int),
        k ≠ [] → dbGet db k = some (.str v ex) →
        (∀ t, ex = some t → t = 0 ∨ now < t) →
        GET db now (some k) = serialazeBulkString v) ∧
    (∀ (db : DB) (now : Int) (k : List Nat),
        k ≠ [] → dbGet db k = none →
        GET db now (some k) = serialazeBulkString []) ∧
    (∀ (db : DB) (now : Int) (k v : List Nat) (t : Int),
        k ≠ [] → dbGet db k = some (.str v (some t)) → t ≠ 0 → t ≤ now →
        GET db now (some k) = serialazeBulkString []) ∧
    (∀ (db : DB) (now : Int) (k : List Nat) (entries : List StreamEntry) (lastId : Nat × Nat),
        k ≠ [] → dbGet db k = some (.stream entries lastId) →
        GET db now (some k) = serialazeSimpleError
          (strBytes "WRONGTYPE Operation against a key holding the wrong kind of value")) := by
  refine ⟨rfl, ?_, ?_, ?_, ?_, ?_⟩
  · intro s hs
    unfold serialazeBulkString
    rw [if_neg hs]
  · intro db now k v ex hk hget hex
    unfold GET
    dsimp only
    rw [if_neg hk, hget]
    dsimp only
    rw [if_neg (by
      intro hx
      cases ex with
      | none => exact absurd hx (by simp [isExpired])
      | some t =>
          unfold isExpired at hx
          rw [Bool.and_eq_true, decide_eq_true_eq, decide_eq_true_eq] at hx
          rcases hex t rfl with h | h
          · exact hx.1 h
          · omega)]
  · intro db now k hk hget
    unfold GET
    dsimp only
    rw [if_neg hk, hget]
  · intro db now k v t hk hget ht0 htn
    unfold GET
    dsimp only
    rw [if_neg hk, hget]
    dsimp only
    rw [if_pos (by
      unfold isExpired
      rw [Bool.and_eq_true, decide_eq_true_eq, decide_eq_true_eq]
      exact ⟨ht0, by omega⟩)]
  · intro db now k entries lastId hk hget
    unfold GET
    dsimp only
    rw [if_neg hk, hget]

/-- C8 (witness): concrete instances of the GET clauses. -/
theorem get_bulk_witness :
    GET [([107], .str [97] (some 9))] 5 (some [107]) = serialazeBulkString [97] ∧
    GET [([107], .str [97] (some 9))] 5 (some [108]) = serialazeBulkString [] ∧
    GET [([107], .str [97] (some 3))] 5 (some [107]) = serialazeBulkString [] :=
  ⟨get_bulk_amended.2.2.1 [([107], .str [97] (some 9))] 5 [107] [97] (some 9)
      (by decide) rfl
      (by intro t ht; right; cases Option.some.inj ht; decide),
   get_bulk_amended.2.2.2.1 [([107], .str [97] (some 9))] 5 [108] (by decide) rfl,
   get_bulk_amended.2.2.2.2.1 [([107], .str [97] (some 3))] 5 [107] [97] 3
      (by decide) rfl (by decide) (by decide)⟩

theorem processQueued (cs : List TInv) : ∀ (now : Int) (db : DB) (q : List TInv),
    processAll now ⟨db, true, true, q⟩ ((cs.map CInv.cmd) ++ [CInv.exec])
      = (⟨(execQueue now ⟨db, true, true, q ++ cs⟩ (q ++ cs)).1.db, false, false, []⟩,
         cs.map (fun _ => serialazeSimpleString (strBytes "QUEUED"))
           ++ [serialazeArray (execQueue now ⟨db, true, true, q ++ cs⟩ (q ++ cs)).2]) := by
  induction cs with
  | nil =>
      intro now db q
      simp only [List.map_nil, List.nil_append, List.append_nil]
      rfl
  | cons c cs ih =>
      intro now db q
      simp only [List.map_cons, List.cons_append]
      rw [show processAll now ⟨db, true, true, q⟩
            (CInv.cmd c :: (cs.map CInv.cmd ++ [CInv.exec]))
          = ((processAll now ⟨db, true, true, q ++ [c]⟩ (cs.map CInv.cmd ++ [CInv.exec])).1,
             serialazeSimpleString (strBytes "QUEUED")
               :: (processAll now ⟨db, true, true, q ++ [c]⟩
                    (cs.map CInv.cmd ++ [CInv.exec])).2)
          from rfl]
      rw [ih now db (q ++ [c])]
      simp [List.append_assoc]

/-- C9: `EXEC` outside a transaction replies `ERR EXEC without MULTI` and
leaves the state unchanged (so a later `EXEC` errors again); after `MULTI`
(reply `+OK`, transaction marked for this connection), every queued
non-`EXEC` command replies `+QUEUED` and is appended in order, and the
closing `EXEC` executes the queue in order against the store as it was
left at `MULTI` time, replies with the array of the collected defined
responses in that order, and clears the transaction state. -/
theorem multi_exec_transaction :
    (∀ (now : Int) (db : DB) (b2 : Bool) (q : List TInv),
        step now ⟨db, false, b2, q⟩ .exec
          = (⟨db, false, b2, q⟩,
             some (serialazeSimpleError (strBytes "ERR EXEC without MULTI")))) ∧
    (∀ (now : Int) (db : DB) (b2 : Bool) (cs : List TInv),
        processAll now ⟨db, false, b2, []⟩
            (CInv.cmd .multi :: (cs.map CInv.cmd ++ [CInv.exec]))
          = (⟨(execQueue now ⟨db, true, true, cs⟩ cs).1.db, false, false, []⟩,
             serialazeSimpleString (strBytes "OK")
               :: (cs.map (fun _ => serialazeSimpleString (strBytes "QUEUED"))
               ++ [serialazeArray (execQueue now ⟨db, true, true, cs⟩ cs).2]))) := by
  constructor
  · intro now db b2 q
    rfl
  · intro now db b2 cs
    rw [show processAll now ⟨db, false, b2, []⟩
          (CInv.cmd .multi :: (cs.map CInv.cmd ++ [CInv.exec]))
        = ((processAll now ⟨db, true, true, []⟩ (cs.map CInv.cmd ++ [CInv.exec])).1,
           serialazeSimpleString (strBytes "OK")
             :: (processAll now ⟨db, true, true, []⟩ (cs.map CInv.cmd ++ [CInv.exec])).2)
        from rfl]
    rw [processQueued cs now db []]
    simp

theorem dbGet_mem_keys (db : DB) (k : List Nat) (v : DBValue) :
    dbGet db k = some v → k ∈ dbKeys db := by
  induction db with
  | nil => intro h; simp [dbGet] at h
  | cons p rest ih =>
      obtain ⟨pk, pv⟩ := p
      intro h
      unfold dbGet at h
      by_cases hp : pk = k
      · rw [hp]
        exact List.mem_cons_self _ _
      · rw [if_neg hp] at h
        exact List.mem_cons_of_mem _ (ih h)

/-- C10: a string key whose (nonzero) expiry has passed but which is still
present in the store is invisible only to `GET`: `TYPE` still replies
`string` (not `none`), the key still shows up in `KEYS *` (which lists all
stored keys), while `GET` replies the null bulk. -/
theorem expired_key_visibility (db : DB) (now : Int) (k v : List Nat) (t : Int)
    (hk : k ≠ []) (hget : dbGet db k = some (.str v (some t)))
    (ht0 : t ≠ 0) (htn : t ≤ now) :
    TYPE db (some k) = serialazeSimpleString (strBytes "string") ∧
    KEYS db (some (strBytes "*")) = serialazeArray ((dbKeys db).map serialazeBulkString) ∧
    k ∈ dbKeys db ∧
    GET db now (some k) = serialazeBulkString [] := by
  refine ⟨?_, ?_, dbGet_mem_keys db k _ hget, ?_⟩
  · unfold TYPE
    dsimp only
    rw [if_neg hk, hget]
  · unfold KEYS
    dsimp only
    rw [if_neg (by decide), if_pos rfl]
  · unfold GET
    dsimp only
    rw [if_neg hk, hget]
    dsimp only
    rw [if_pos (by
      unfold isExpired
      rw [Bool.and_eq_true, decide_eq_true_eq, decide_eq_true_eq]
      exact ⟨ht0, by omega⟩)]

/-- C10 (witness): a concrete store with one expired-but-present key. -/
theorem expired_key_visibility_witness :
    TYPE [([107], DBValue.str [97] (some 3))] (some [107])
      = serialazeSimpleString (strBytes "string") ∧
    KEYS [([107], DBValue.str [97] (some 3))] (some (strBytes "*"))
      = serialazeArray ((dbKeys [([107], DBValue.str [97] (some 3))]).map serialazeBulkString) ∧
    [107] ∈ dbKeys [([107], DBValue.str [97] (some 3))] ∧
    GET [([107], DBValue.str [97] (some 3))] 5 (some [107]) = serialazeBulkString [] :=
  expired_key_visibility [([107], DBValue.str [97] (some 3))] 5 [107] [97] 3
    (by decide) rfl (by decide) (by decide)
